import Mathlib

/-!
Verification of the graph assembly and serialization core of the
schemaorg knowledge-graph constructor.

The Python source is shallowly embedded: the mutable
`KnowledgeGraphConstructor` state becomes the structure `KG`, its methods
become state-passing functions, and the dynamically typed values flowing
out of `json.loads` become the inductive `JValue`.  Python operations that
can raise (`d[k]`, `.get`, iteration, pydantic field validation) are
modelled with `Except PyErr`.  `uuid.uuid4()` is modelled by a fresh-id
counter: the only property of uuid4 the code relies on is that distinct
draws are distinct strings over the uuid alphabet (hex digits and dashes,
which are untouched by `_sanitize_id` / `_build_uri` cleaning).
-/

namespace KGC

/-! ### JSON values (results of Python `json.loads`) -/

/-- A decoded JSON value, as produced by Python `json.loads`.
Numbers keep their source lexeme; no verified claim inspects numeric
values, only the shape of the data. -/
inductive JValue where
  | null
  | bool (b : Bool)
  | num (lit : String)
  | str (s : String)
  | arr (elems : List JValue)
  | obj (entries : List (String × JValue))

/-- Lookup in a Python-dict association list (keys are unique in lists
built by `jDictSet`, which mirrors dict insertion). -/
def jDictGet (kvs : List (String × JValue)) (k : String) : Option JValue :=
  match kvs with
  | [] => none
  | (k2, v) :: rest => if k2 = k then some v else jDictGet rest k

/-- Python dict assignment `d[k] = v`: replaces the value of an existing
key in place (keeping its original position) or appends a new key. -/
def jDictSet (kvs : List (String × JValue)) (k : String) (v : JValue) :
    List (String × JValue) :=
  match kvs with
  | [] => [(k, v)]
  | (k2, v2) :: rest =>
    if k2 = k then (k2, v) :: rest else (k2, v2) :: jDictSet rest k v

/-! ### A model of Python `json.loads`

A recursive-descent decoder over `List Char`, following the grammar
accepted by Python's `json` module with default options: JSON
whitespace is space/tab/newline/carriage-return, objects and arrays are
strict (no trailing commas), strings reject unescaped control
characters, and the Python extensions `NaN`, `Infinity`, `-Infinity`
are accepted.  Recursion is bounded by fuel; every recursive step
consumes at least one input character, so fuel `length + 1` suffices.
Lone surrogates from `\uXXXX` escapes (which Python keeps as surrogate
code units, not representable in `Char`) are replaced by U+FFFD; no
verified claim depends on such strings' contents. -/

def jsonWsCh (c : Char) : Bool := c = ' ' || c = '\t' || c = '\n' || c = '\r'

def skipWs (l : List Char) : List Char := l.dropWhile jsonWsCh

def hexDigitVal (c : Char) : Option Nat :=
  if 48 ≤ c.toNat && c.toNat ≤ 57 then some (c.toNat - 48)
  else if 97 ≤ c.toNat && c.toNat ≤ 102 then some (c.toNat - 87)
  else if 65 ≤ c.toNat && c.toNat ≤ 70 then some (c.toNat - 55)
  else none

/-- Code point to `Char`; surrogate code points become U+FFFD. -/
def jsonScalar (n : Nat) : Char :=
  if n.isValidChar then Char.ofNat n else Char.ofNat 0xFFFD

/-- Drop `pat` from the front of `l`, if it is a prefix. -/
def dropPat : List Char → List Char → Option (List Char)
  | [], l => some l
  | _, [] => none
  | p :: ps, c :: cs => if c = p then dropPat ps cs else none

/-- JSON string body after the opening quote: returns the decoded
characters and the input after the closing quote. -/
def parseStrAux : Nat → List Char → Option (List Char × List Char)
  | 0, _ => none
  | _, [] => none
  | fuel + 1, c :: rest =>
    if c = '"' then some ([], rest)
    else if c = '\\' then
      match rest with
      | [] => none
      | e :: rest2 =>
        let cont := fun (d : Char) (r : List Char) =>
          (parseStrAux fuel r).map (fun p => (d :: p.1, p.2))
        if e = '"' then cont '"' rest2
        else if e = '\\' then cont '\\' rest2
        else if e = '/' then cont '/' rest2
        else if e = 'b' then cont (Char.ofNat 8) rest2
        else if e = 'f' then cont (Char.ofNat 12) rest2
        else if e = 'n' then cont '\n' rest2
        else if e = 'r' then cont '\r' rest2
        else if e = 't' then cont '\t' rest2
        else if e = 'u' then
          match rest2 with
          | h1 :: h2 :: h3 :: h4 :: rest3 =>
            match hexDigitVal h1, hexDigitVal h2, hexDigitVal h3, hexDigitVal h4 with
            | some a, some b, some c2, some d =>
              let n := ((a * 16 + b) * 16 + c2) * 16 + d
              if 0xD800 ≤ n && n ≤ 0xDBFF then
                match rest3 with
                | '\\' :: 'u' :: g1 :: g2 :: g3 :: g4 :: rest4 =>
                  match hexDigitVal g1, hexDigitVal g2, hexDigitVal g3, hexDigitVal g4 with
                  | some a2, some b2, some c3, some d2 =>
                    let m := ((a2 * 16 + b2) * 16 + c3) * 16 + d2
                    if 0xDC00 ≤ m && m ≤ 0xDFFF then
                      cont (jsonScalar (0x10000 + (n - 0xD800) * 0x400 + (m - 0xDC00))) rest4
                    else cont (jsonScalar n) rest3
                  | _, _, _, _ => cont (jsonScalar n) rest3
                | _ => cont (jsonScalar n) rest3
              else cont (jsonScalar n) rest3
            | _, _, _, _ => none
          | _ => none
        else none
    else if c.toNat < 32 then none
    else (parseStrAux fuel rest).map (fun p => (c :: p.1, p.2))

def isDigitCh (c : Char) : Bool := 48 ≤ c.toNat && c.toNat ≤ 57

/-- JSON number grammar: `-?(0|[1-9][0-9]*)(\.[0-9]+)?([eE][+-]?[0-9]+)?`. -/
def parseNumLex (l : List Char) : Option (List Char × List Char) :=
  let (neg, l1) : List Char × List Char :=
    match l with
    | '-' :: r => (['-'], r)
    | _ => ([], l)
  let intPart : Option (List Char × List Char) :=
    match l1 with
    | '0' :: rest => some (['0'], rest)
    | c :: rest =>
      if isDigitCh c then some (c :: rest.takeWhile isDigitCh, rest.dropWhile isDigitCh)
      else none
    | [] => none
  match intPart with
  | none => none
  | some (ip, l2) =>
    let fracPart : Option (List Char × List Char) :=
      match l2 with
      | '.' :: rest =>
        let ds := rest.takeWhile isDigitCh
        if ds = [] then none else some ('.' :: ds, rest.dropWhile isDigitCh)
      | _ => some ([], l2)
    match fracPart with
    | none => none
    | some (fp, l3) =>
      let expPart : Option (List Char × List Char) :=
        match l3 with
        | c :: rest =>
          if c = 'e' || c = 'E' then
            let (sgn, r2) : List Char × List Char :=
              match rest with
              | s :: r3 => if s = '+' || s = '-' then ([s], r3) else ([], rest)
              | [] => ([], rest)
            let ds := r2.takeWhile isDigitCh
            if ds = [] then none else some (c :: (sgn ++ ds), r2.dropWhile isDigitCh)
          else some ([], l3)
        | [] => some ([], l3)
      match expPart with
      | none => none
      | some (ep, l4) => some (neg ++ ip ++ fp ++ ep, l4)

mutual

def parseValue : Nat → List Char → Option (JValue × List Char)
  | 0, _ => none
  | fuel + 1, l =>
    match skipWs l with
    | [] => none
    | c :: rest =>
      if c = '"' then
        match parseStrAux (rest.length + 1) rest with
        | some (cs, r) => some (JValue.str (String.mk cs), r)
        | none => none
      else if c.toNat = 123 then  -- left brace: object
        match parseObjStart fuel rest with
        | some (kvs, r) => some (JValue.obj kvs, r)
        | none => none
      else if c = '[' then
        match parseArrStart fuel rest with
        | some (vs, r) => some (JValue.arr vs, r)
        | none => none
      else
        let lc := c :: rest
        ((dropPat "true".data lc).map (fun r => (JValue.bool true, r))) <|>
        ((dropPat "false".data lc).map (fun r => (JValue.bool false, r))) <|>
        ((dropPat "null".data lc).map (fun r => (JValue.null, r))) <|>
        ((dropPat "NaN".data lc).map (fun r => (JValue.num "NaN", r))) <|>
        ((dropPat "Infinity".data lc).map (fun r => (JValue.num "Infinity", r))) <|>
        ((dropPat "-Infinity".data lc).map (fun r => (JValue.num "-Infinity", r))) <|>
        ((parseNumLex lc).map (fun p => (JValue.num (String.mk p.1), p.2)))

def parseArrStart : Nat → List Char → Option (List JValue × List Char)
  | 0, _ => none
  | fuel + 1, l =>
    match skipWs l with
    | ']' :: r => some ([], r)
    | l2 =>
      match parseValue fuel l2 with
      | some (v, r) => parseArrRest fuel [v] r
      | none => none

def parseArrRest : Nat → List JValue → List Char → Option (List JValue × List Char)
  | 0, _, _ => none
  | fuel + 1, acc, l =>
    match skipWs l with
    | ']' :: r => some (acc.reverse, r)
    | ',' :: r =>
      match parseValue fuel r with
      | some (v, r2) => parseArrRest fuel (v :: acc) r2
      | none => none
    | _ => none

def parseObjStart : Nat → List Char → Option (List (String × JValue) × List Char)
  | 0, _ => none
  | fuel + 1, l =>
    match skipWs l with
    | c :: r =>
      if c.toNat = 125 then some ([], r)  -- right brace: empty object
      else if c = '"' then
        match parseStrAux (r.length + 1) r with
        | some (kcs, r2) =>
          match skipWs r2 with
          | ':' :: r3 =>
            match parseValue fuel r3 with
            | some (v, r4) => parseObjRest fuel (jDictSet [] (String.mk kcs) v) r4
            | none => none
          | _ => none
        | none => none
      else none
    | [] => none

def parseObjRest : Nat → List (String × JValue) → List Char →
    Option (List (String × JValue) × List Char)
  | 0, _, _ => none
  | fuel + 1, acc, l =>
    match skipWs l with
    | c :: r =>
      if c.toNat = 125 then some (acc, r)  -- right brace: end of object
      else if c = ',' then
        match skipWs r with
        | '"' :: r2 =>
          match parseStrAux (r2.length + 1) r2 with
          | some (kcs, r3) =>
            match skipWs r3 with
            | ':' :: r4 =>
              match parseValue fuel r4 with
              | some (v, r5) => parseObjRest fuel (jDictSet acc (String.mk kcs) v) r5
              | none => none
            | _ => none
          | none => none
        | _ => none
      else none
    | [] => none

end

/-- Python `json.loads`: decode the whole string, allowing only trailing
JSON whitespace.  `none` models `json.JSONDecodeError`. -/
def jsonLoads (s : String) : Option JValue :=
  match parseValue (s.data.length + 1) s.data with
  | some (v, r) => if skipWs r = [] then some v else none
  | none => none

/-! ### Python string helpers used by the source -/

/-- The whitespace set of Python `str.strip()` (i.e. `str.isspace`):
ASCII space, `\t\n\v\f\r`, `\x1c`-`\x1f`, and the Unicode space
characters. -/
def isPyStripWs (c : Char) : Bool :=
  c.toNat = 32 || (9 ≤ c.toNat && c.toNat ≤ 13) || (28 ≤ c.toNat && c.toNat ≤ 31) ||
  c.toNat = 133 || c.toNat = 160 || c.toNat = 5760 ||
  (8192 ≤ c.toNat && c.toNat ≤ 8202) || c.toNat = 8232 || c.toNat = 8233 ||
  c.toNat = 8239 || c.toNat = 8287 || c.toNat = 12288

/-- Python `response.strip()`. -/
def pyStrip (s : String) : String :=
  String.mk (((s.data.dropWhile isPyStripWs).reverse.dropWhile isPyStripWs).reverse)

/-- One splitting step of Python `str.split(sep)` for a non-empty `sep`:
non-overlapping matches scanned left to right. -/
def splitOnPatAux (sep : List Char) : Nat → List Char → List Char → List (List Char)
  | 0, cur, l => [cur.reverse ++ l]
  | fuel + 1, cur, l =>
    match dropPat sep l with
    | some r => cur.reverse :: splitOnPatAux sep fuel [] r
    | none =>
      match l with
      | [] => [cur.reverse]
      | c :: r => splitOnPatAux sep fuel (c :: cur) r

/-- Python `s.split(sep)` (with the non-empty separators the source uses). -/
def pySplit (s sep : String) : List String :=
  (splitOnPatAux sep.data (s.data.length + 1) [] s.data).map String.mk

/-- Python `"\n".join(parts)` (and `", ".join`). -/
def pyJoin (sep : String) : List String → String
  | [] => ""
  | [x] => x
  | x :: y :: rest => x ++ sep ++ pyJoin sep (y :: rest)

/-! ### Identifier Builder (`_sanitize_id`, `_build_uri`)

`re.sub(r'\s+', '', text)` removes whitespace; the ASCII set is used
here because every non-ASCII whitespace character that Python's `\s`
additionally matches is outside `[a-zA-Z0-9\-_.]` and is therefore
removed by the second substitution in any case, so the composed output
is unchanged.  Likewise `str.lower()` is applied to a string that only
contains ASCII characters after the second substitution, where it is
exactly the ASCII lowering below. -/

def isPyWsCh (c : Char) : Bool := c.toNat = 32 || (9 ≤ c.toNat && c.toNat ≤ 13)

/-- The character class `[a-zA-Z0-9\-_.]` of the source's regexes. -/
def allowedIdChar (c : Char) : Bool :=
  (97 ≤ c.toNat && c.toNat ≤ 122) || (65 ≤ c.toNat && c.toNat ≤ 90) ||
  (48 ≤ c.toNat && c.toNat ≤ 57) || c.toNat = 45 || c.toNat = 95 || c.toNat = 46

/-- ASCII lower-casing (`str.lower()` restricted to the post-filter
alphabet, where they agree). -/
def lowerChar (c : Char) : Char :=
  if 65 ≤ c.toNat && c.toNat ≤ 90 then Char.ofNat (c.toNat + 32) else c

/-- The two `re.sub` passes shared by `_sanitize_id` and `_build_uri`. -/
def cleanChars (l : List Char) : List Char :=
  (l.filter (fun c => !isPyWsCh c)).filter allowedIdChar

/-- `KnowledgeGraphConstructor._sanitize_id`. -/
def sanitizeId (s : String) : String :=
  String.mk ((cleanChars s.data).map lowerChar)

/-- `KnowledgeGraphConstructor._build_uri` with `URI_PREFIX = "urn:kg"`. -/
def buildUri (entityId : String) : String :=
  "urn:kg:" ++ String.mk (cleanChars entityId.data)

/-! ### Data model -/

/-- `SchemaOrgEntity` (pydantic model). -/
structure SchemaOrgEntity where
  entity_id : String
  name : String
  schema_type : String
  schema_uri : String
  properties : List (String × JValue)

/-- `SchemaOrgRelation` (pydantic model). -/
structure SchemaOrgRelation where
  subject_id : String
  predicate : String
  predicate_uri : String
  object_id : String

/-- The `KnowledgeGraphConstructor` state: `entities` is the
insertion-ordered dict `Dict[str, SchemaOrgEntity]`, `relations` and
`texts` the two lists.  `nextId` drives the fresh-id supply modelling
`uuid.uuid4()` (see the header comment). -/
structure KG where
  entities : List (String × SchemaOrgEntity)
  relations : List SchemaOrgRelation
  texts : List String
  nextId : Nat

def emptyKG : KG := ⟨[], [], [], 0⟩

/-- The fresh entity id drawn for the `n`-th entity construction; its
characters are untouched by `cleanChars`/`lowerChar`, like a uuid4 hex
string. -/
def freshId (n : Nat) : String := "id-" ++ toString n

/-! ### Python dynamic-operation semantics -/

/-- Errors the Python code can raise past `_parse_response`'s
`except json.JSONDecodeError` handler. `validationError` stands for
pydantic's `ValidationError` on a mistyped model field. -/
inductive PyErr where
  | attributeError
  | keyError (k : String)
  | typeError
  | validationError
deriving DecidableEq

/-- Python `d.get(k, default)`: only dicts have `.get`; every other
value raises `AttributeError`. -/
def pyGetAttrD (v : JValue) (k : String) (d : JValue) : Except PyErr JValue :=
  match v with
  | JValue.obj kvs => Except.ok ((jDictGet kvs k).getD d)
  | _ => Except.error PyErr.attributeError

/-- Python `v[k]` with a string key: dict lookup (`KeyError` when
missing); strings and lists require integer indices (`TypeError`);
every other value is not subscriptable (`TypeError`). -/
def pySubscript (v : JValue) (k : String) : Except PyErr JValue :=
  match v with
  | JValue.obj kvs =>
    match jDictGet kvs k with
    | some x => Except.ok x
    | none => Except.error (PyErr.keyError k)
  | _ => Except.error PyErr.typeError

/-- Python `for x in v`: lists yield elements, strings yield 1-character
strings, dicts yield their keys; other values raise `TypeError`. -/
def pyIter : JValue → Except PyErr (List JValue)
  | JValue.arr xs => Except.ok xs
  | JValue.str s => Except.ok (s.data.map (fun c => JValue.str (String.mk [c])))
  | JValue.obj kvs => Except.ok (kvs.map (fun p => JValue.str p.1))
  | _ => Except.error PyErr.typeError

/-- pydantic validation of a `str` field. -/
def asStr : JValue → Except PyErr String
  | JValue.str s => Except.ok s
  | _ => Except.error PyErr.validationError

/-- `re.sub(pattern, '', x)` requires a string argument (`TypeError`
otherwise); used when a relation's subject/object name reaches
`_sanitize_id`. -/
def asReStr : JValue → Except PyErr String
  | JValue.str s => Except.ok s
  | _ => Except.error PyErr.typeError

/-- pydantic validation of the `Dict[str, Any]` `properties` field. -/
def asPropsDict : JValue → Except PyErr (List (String × JValue))
  | JValue.obj kvs => Except.ok kvs
  | _ => Except.error PyErr.validationError

/-! ### Extraction parsing (`SchemaOrgEntityExtractor._parse_response`) -/

/-- The markdown-fence stripping at the top of `_parse_response`:
`in` tests and `split` indexing expressed through `pySplit`
(`"x" in s` iff splitting on `"x"` yields at least two pieces). -/
def stripMarkdown (response : String) : String :=
  let parts := pySplit response "```json"
  if 2 ≤ parts.length then
    (pySplit ((parts.drop 1).headD "") "```").headD ""
  else
    let parts2 := pySplit response "```"
    if 2 ≤ parts2.length then
      (pySplit ((parts2.drop 1).headD "") "```").headD ""
    else response

/-- `_parse_response`: strip fences, `json.loads` the stripped text
(`JSONDecodeError` is caught and yields `([], [])`), then
`data.get("entities", []), data.get("relations", [])` — which raises
`AttributeError` past the handler when `data` is not a dict. -/
def parseResponse (response : String) : Except PyErr (JValue × JValue) :=
  match jsonLoads (pyStrip (stripMarkdown response)) with
  | none => Except.ok (JValue.arr [], JValue.arr [])
  | some data => do
    let es ← pyGetAttrD data "entities" (JValue.arr [])
    let rs ← pyGetAttrD data "relations" (JValue.arr [])
    pure (es, rs)

/-! ### Graph Assembler (`add_text`) -/

/-- The dedup key `f"{entity.schema_type}:{self._sanitize_id(entity.name)}"`. -/
def entityKey (ty name : String) : String := ty ++ ":" ++ sanitizeId name

def containsKey (es : List (String × SchemaOrgEntity)) (k : String) : Bool :=
  es.any (fun p => p.1 = k)

def entLookup (es : List (String × SchemaOrgEntity)) (k : String) :
    Option SchemaOrgEntity :=
  match es with
  | [] => none
  | (k2, e) :: rest => if k2 = k then some e else entLookup rest k

/-- `KnowledgeGraphConstructor._find_entity_key`: canonicalize the query
and scan the stored entities in insertion order for the first whose
sanitized stored name matches, irrespective of type. -/
def findEntityKey (es : List (String × SchemaOrgEntity)) (name : String) :
    Option String :=
  match es with
  | [] => none
  | (k, e) :: rest =>
    if sanitizeId e.name = sanitizeId name then some k
    else findEntityKey rest name

/-- The body of the entity loop in `add_text`: construct the
`SchemaOrgEntity` (evaluating the subscripts and `.get` first, then
validating fields, as Python does), then insert it only when the dedup
key is absent. -/
def addEntityDatum (kg : KG) (ed : JValue) : Except PyErr KG := do
  let nameV ← pySubscript ed "name"
  let tyV ← pySubscript ed "type"
  let propsV ← pyGetAttrD ed "properties" (JValue.obj [])
  let name ← asStr nameV
  let ty ← asStr tyV
  let props ← asPropsDict propsV
  let ent : SchemaOrgEntity :=
    { entity_id := freshId kg.nextId
      name := name
      schema_type := ty
      schema_uri := "https://schema.org/" ++ ty
      properties := props }
  let kg2 : KG := { kg with nextId := kg.nextId + 1 }
  let key := entityKey ty name
  if containsKey kg2.entities key then pure kg2
  else pure { kg2 with entities := kg2.entities ++ [(key, ent)] }

/-- The body of the relation loop in `add_text`, in Python evaluation
order: resolve the subject name, then the object name, and only when
both resolve build the `SchemaOrgRelation` (subject lookup, `predicate`
subscripts, object lookup, then pydantic validation) and append it.
The `if subject_key and object_key` truthiness test coincides with
both being non-`None` because every stored key contains a colon and is
therefore non-empty. -/
def addRelDatum (kg : KG) (rd : JValue) : Except PyErr KG := do
  let sV ← pySubscript rd "subject"
  let s ← asReStr sV
  let subjectKey := findEntityKey kg.entities s
  let oV ← pySubscript rd "object"
  let o ← asReStr oV
  let objectKey := findEntityKey kg.entities o
  match subjectKey, objectKey with
  | some sk, some okk =>
    match entLookup kg.entities sk with
    | none => Except.error (PyErr.keyError sk)
    | some se => do
      let pV ← pySubscript rd "predicate"
      match entLookup kg.entities okk with
      | none => Except.error (PyErr.keyError okk)
      | some oe => do
        let p ← asStr pV
        pure { kg with relations := kg.relations ++
          [{ subject_id := se.entity_id
             predicate := p
             predicate_uri := "https://schema.org/" ++ p
             object_id := oe.entity_id }] }
  | _, _ => pure kg

/-- A `for` loop over already-iterated items whose body may raise: on an
error the loop stops and the state reached so far is kept (the body
functions only change the state in their final, non-failing step). -/
def foldE (f : KG → JValue → Except PyErr KG) : KG → List JValue →
    Except (KG × PyErr) KG
  | kg, [] => Except.ok kg
  | kg, x :: xs =>
    match f kg x with
    | Except.ok kg2 => foldE f kg2 xs
    | Except.error e => Except.error (kg, e)

/-- The entity loop of `add_text`: `for entity_data in entities: …`
(setting up the iteration can itself raise `TypeError`). -/
def ingestEntities (kg : KG) (es : JValue) : Except (KG × PyErr) KG :=
  match pyIter es with
  | Except.error e => Except.error (kg, e)
  | Except.ok elist => foldE addEntityDatum kg elist

/-- The relation loop of `add_text`: `for rel_data in relations: …`. -/
def ingestRelations (kg : KG) (rs : JValue) : Except (KG × PyErr) KG :=
  match pyIter rs with
  | Except.error e => Except.error (kg, e)
  | Except.ok rlist => foldE addRelDatum kg rlist

/-- `KnowledgeGraphConstructor.add_text`, given the Oracle's raw
response string for this text unit (the LLM round trip itself is the
external collaborator).  The text is appended to the log first, then
the entity loop runs, then the relation loop; an exception escaping a
later step leaves the state mutated so far, which the error branch
carries. -/
def addText (kg : KG) (text : String) (response : String) :
    Except (KG × PyErr) KG :=
  let kg1 : KG := { kg with texts := kg.texts ++ [text] }
  match parseResponse response with
  | Except.error e => Except.error (kg1, e)
  | Except.ok (es, rs) =>
    match ingestEntities kg1 es with
    | Except.error p => Except.error p
    | Except.ok kg2 => ingestRelations kg2 rs

/-- The state the process is left in, whether or not `add_text` raised. -/
def resultState : Except (KG × PyErr) KG → KG
  | Except.ok kg => kg
  | Except.error (kg, _) => kg

/-- Graph states reachable from a fresh constructor by ingestion calls
alone (including calls whose Oracle response made `add_text` raise:
the partially mutated state remains). -/
inductive Reachable : KG → Prop
  | empty : Reachable emptyKG
  | step (kg : KG) (text response : String) :
      Reachable kg → Reachable (resultState (addText kg text response))

/-- Referential integrity of the Relation Store against the Entity
Store. -/
def RefIntegrity (kg : KG) : Prop :=
  ∀ r ∈ kg.relations,
    (∃ p ∈ kg.entities, p.2.entity_id = r.subject_id) ∧
    (∃ p ∈ kg.entities, p.2.entity_id = r.object_id)

/-! ### Serializer: `to_jsonld` -/

/-- A JSON-LD node object; built as a dict literal and updated with
Python dict assignment, hence `jDictSet`. -/
abbrev JNode := List (String × JValue)

def strDictGet (m : List (String × String)) (k : String) : Option String :=
  match m with
  | [] => none
  | (k2, v) :: rest => if k2 = k then some v else strDictGet rest k

def strDictSet (m : List (String × String)) (k v : String) :
    List (String × String) :=
  match m with
  | [] => [(k, v)]
  | (k2, v2) :: rest =>
    if k2 = k then (k2, v) :: rest else (k2, v2) :: strDictSet rest k v

/-- `entity_uri_map`: `entity_id -> _build_uri(entity_id)` over the
stored entities. -/
def uriMapOf (kg : KG) : List (String × String) :=
  kg.entities.foldl (fun m p => strDictSet m p.2.entity_id (buildUri p.2.entity_id)) []

/-- One node object: the dict literal
`{"@id": …, "@type": …, "name": …, **entity.properties}` — a property
key equal to a reserved key silently overwrites it.  The
`entity_uri_map[entity.entity_id]` lookup cannot raise `KeyError`
because the map was just built over the same entities; the dead branch
is given the empty string. -/
def mkNode (um : List (String × String)) (e : SchemaOrgEntity) : JNode :=
  e.properties.foldl (fun n p => jDictSet n p.1 p.2)
    [("@id", JValue.str ((strDictGet um e.entity_id).getD "")),
     ("@type", JValue.str e.schema_type),
     ("name", JValue.str e.name)]

/-- Python `==` between an arbitrary value and a string: true only for
equal strings. -/
def jEqStr (v : JValue) (s : String) : Bool :=
  match v with
  | JValue.str t => t = s
  | _ => false

/-- `node["@id"] == subject_uri`.  `"@id"` is present in every node the
exporter builds (the dict literal seeds it and assignment never removes
keys), so the `KeyError` branch of the subscript cannot fire; a missing
key is modelled as a non-match. -/
def nodeIdIs (n : JNode) (u : String) : Bool :=
  match jDictGet n "@id" with
  | some v => jEqStr v u
  | none => false

/-- The inner `for node in graph: … break` loop: update the first node
whose `@id` equals `u`. -/
def setFirstNode (u : String) (upd : JNode → JNode) : List JNode → List JNode
  | [] => []
  | n :: rest =>
    if nodeIdIs n u then upd n :: rest else n :: setFirstNode u upd rest

/-- Python truthiness of `entity_uri_map.get(...)`: `None` and the
empty string are falsy. -/
def pyTruthyS (o : Option String) : Bool :=
  match o with
  | none => false
  | some s => !s.isEmpty

/-- The body of the relation loop in `to_jsonld`: skip the relation if
either uri is missing/falsy; otherwise set
`node[relation.predicate] = {"@id": object_uri}` on the subject node. -/
def applyRelation (um : List (String × String)) (g : List JNode)
    (r : SchemaOrgRelation) : List JNode :=
  let su := strDictGet um r.subject_id
  let ou := strDictGet um r.object_id
  if pyTruthyS su && pyTruthyS ou then
    setFirstNode (su.getD "")
      (fun n => jDictSet n r.predicate (JValue.obj [("@id", JValue.str (ou.getD ""))])) g
  else g

/-- The `@graph` array of `to_jsonld`. -/
def toJsonldGraph (kg : KG) : List JNode :=
  let um := uriMapOf kg
  kg.relations.foldl (applyRelation um) (kg.entities.map (fun p => mkNode um p.2))

/-- `KnowledgeGraphConstructor.to_jsonld`. -/
def toJsonld (kg : KG) : JValue :=
  JValue.obj
    [("@context", JValue.str "https://schema.org"),
     ("@graph", JValue.arr ((toJsonldGraph kg).map JValue.obj))]

/-! ### Serializer: `to_rdf` -/

/-- The `lines` list of `to_rdf` before `"\n".join`. -/
def toRdfLines (kg : KG) : List String :=
  ["@prefix schema: <https://schema.org/> .",
   "@prefix kg: <urn:kg:> .",
   ""] ++
  (kg.entities.map (fun p =>
    ["kg:" ++ sanitizeId p.2.entity_id ++ " a schema:" ++ p.2.schema_type ++ " ;",
     "    schema:name \"" ++ p.2.name ++ "\" .",
     ""])).flatten ++
  kg.relations.map (fun r =>
    "kg:" ++ sanitizeId r.subject_id ++ " schema:" ++ r.predicate ++
    " kg:" ++ sanitizeId r.object_id ++ " .")

/-- `KnowledgeGraphConstructor.to_rdf`. -/
def toRdf (kg : KG) : String := pyJoin "\n" (toRdfLines kg)

/-- The lines of a text: `s.split("\n")` (Python semantics: a trailing
newline yields a final empty piece). -/
def splitNlAux : List Char → List Char → List (List Char)
  | [], cur => [cur.reverse]
  | c :: rest, cur =>
    if c = '\n' then cur.reverse :: splitNlAux rest []
    else splitNlAux rest (c :: cur)

def textLines (s : String) : List String := (splitNlAux s.data []).map String.mk

def nonEmptyLineCount (ls : List String) : Nat :=
  (ls.filter (fun l => !l.isEmpty)).length

/-! ### Query Context Builder (`query`) -/

mutual

/-- Approximation of Python `repr` on JSON-decoded values, used only
through `str()` in the context f-string.  Numeric formatting and
string-escape subtleties are elided; no verified claim depends on the
rendered context text, only on which lines appear. -/
def pyReprJ : JValue → String
  | JValue.null => "None"
  | JValue.bool true => "True"
  | JValue.bool false => "False"
  | JValue.num lit => lit
  | JValue.str s => "\x27" ++ s ++ "\x27"
  | JValue.arr xs => "[" ++ pyJoin ", " (pyReprList xs) ++ "]"
  | JValue.obj kvs => "\x7b" ++ pyJoin ", " (pyReprEntries kvs) ++ "\x7d"

def pyReprList : List JValue → List String
  | [] => []
  | v :: vs => pyReprJ v :: pyReprList vs

def pyReprEntries : List (String × JValue) → List String
  | [] => []
  | (k, v) :: rest => ("\x27" ++ k ++ "\x27: " ++ pyReprJ v) :: pyReprEntries rest

end

/-- Python `str(v)` for a JSON-decoded value. -/
def pyStrJ : JValue → String
  | JValue.str s => s
  | v => pyReprJ v

/-- One entity context line:
`f"{entity.name} (type: {entity.schema_type}, {props})"`. -/
def entityCtxLine (e : SchemaOrgEntity) : String :=
  e.name ++ " (type: " ++ e.schema_type ++ ", " ++
    pyJoin ", " (e.properties.map (fun p => p.1 ++ ": " ++ pyStrJ p.2)) ++ ")"

/-- `next((e for e in self.entities.values() if e.entity_id == i), None)`. -/
def findById (es : List (String × SchemaOrgEntity)) (i : String) :
    Option SchemaOrgEntity :=
  match es with
  | [] => none
  | (_, e) :: rest => if e.entity_id = i then some e else findById rest i

/-- The relation part of the context: a line is produced only when both
endpoint entities are found (`if subject and obj`; pydantic model
instances are always truthy, so the test is exactly both lookups
succeeding). -/
def relCtxLine (es : List (String × SchemaOrgEntity)) (r : SchemaOrgRelation) :
    Option String :=
  match findById es r.subject_id, findById es r.object_id with
  | some s, some o => some (s.name ++ " " ++ r.predicate ++ " " ++ o.name)
  | _, _ => none

/-- `context = "\n".join(context_parts)` in `query`. -/
def queryContext (kg : KG) : String :=
  pyJoin "\n"
    (kg.entities.map (fun p => entityCtxLine p.2) ++
     (kg.relations.map (relCtxLine kg.entities)).reduceOption)

/-- The prompt `query` sends to the LLM; the answer itself comes from
the external Oracle. -/
def queryPrompt (kg : KG) (question : String) : String :=
  "Based on the following knowledge graph, answer the question.\n\nKnowledge Graph:\n" ++
  queryContext kg ++ "\n\nQuestion: " ++ question ++
  "\n\nAnswer concisely based only on the information in the knowledge graph."

/-! ### Read-only consumers as state transformers

The three consumers read `self` and assign to none of its fields (the
only assignment in `to_jsonld` targets the freshly built node dicts of
`graph`, which copy `entity.properties` via the `**` spread), so as
state transformers they return the state the method leaves behind:
the one it received. -/

def toJsonldRun (kg : KG) : JValue × KG := (toJsonld kg, kg)

def toRdfRun (kg : KG) : String × KG := (toRdf kg, kg)

def queryRun (kg : KG) (question : String) : String × KG :=
  (queryPrompt kg question, kg)

/-- The state left by one relation-loop iteration, whether or not the
body raised (the body mutates the store only in its final, non-failing
step, so an error leaves the state as it was). -/
def relDatumState (kg : KG) (rd : JValue) : KG :=
  match addRelDatum kg rd with
  | Except.ok kg2 => kg2
  | Except.error _ => kg

/-! ## Character-level facts about the Identifier Builder -/

theorem toNat_ofNat_valid (n : Nat) (h : n.isValidChar) :
    (Char.ofNat n).toNat = n := by
  unfold Char.ofNat
  rw [dif_pos h]
  rfl

theorem lowerChar_eq_self (d : Char) (h : ¬(65 ≤ d.toNat ∧ d.toNat ≤ 90)) :
    lowerChar d = d := by
  simp only [lowerChar, ite_eq_right_iff]
  intro hc
  simp only [Bool.and_eq_true, decide_eq_true_eq] at hc
  exact absurd hc h

/-- Characters in the image of the sanitizer are fixed by every pass:
not whitespace, inside the allowed class, and already lower case. -/
theorem lowerChar_fix (c : Char) (h : allowedIdChar c = true) :
    isPyWsCh (lowerChar c) = false ∧ allowedIdChar (lowerChar c) = true ∧
      lowerChar (lowerChar c) = lowerChar c := by
  simp only [allowedIdChar, Bool.or_eq_true, Bool.and_eq_true, decide_eq_true_eq] at h
  by_cases hu : 65 ≤ c.toNat ∧ c.toNat ≤ 90
  · have hv : (c.toNat + 32).isValidChar := by
      constructor
      omega
    have hl : lowerChar c = Char.ofNat (c.toNat + 32) := by
      simp [lowerChar, hu.1, hu.2]
    have ht : (lowerChar c).toNat = c.toNat + 32 := by
      rw [hl, toNat_ofNat_valid _ hv]
    refine ⟨?_, ?_, ?_⟩
    · simp [isPyWsCh, ht]; omega
    · simp [allowedIdChar, ht]; omega
    · refine lowerChar_eq_self _ ?_
      omega
  · have hl : lowerChar c = c := lowerChar_eq_self c hu
    rw [hl]
    refine ⟨?_, ?_, hl⟩
    · simp [isPyWsCh]; omega
    · simp [allowedIdChar]; omega

theorem data_mk (l : List Char) : (String.mk l).data = l := rfl

theorem mem_cleanChars_allowed {c : Char} {l : List Char} (h : c ∈ cleanChars l) :
    allowedIdChar c = true := (List.mem_filter.mp h).2

theorem sanitize_fix_aux (x : String) :
    ∀ c ∈ (cleanChars x.data).map lowerChar,
      isPyWsCh c = false ∧ allowedIdChar c = true ∧ lowerChar c = c := by
  intro c hc
  obtain ⟨d, hd, rfl⟩ := List.mem_map.mp hc
  exact lowerChar_fix d (mem_cleanChars_allowed hd)

theorem sanitizeId_idem (x : String) : sanitizeId (sanitizeId x) = sanitizeId x := by
  have haux := sanitize_fix_aux x
  show String.mk _ = String.mk _
  simp only [sanitizeId, data_mk]
  have hv : List.filter (fun c => !isPyWsCh c) ((cleanChars x.data).map lowerChar) =
      (cleanChars x.data).map lowerChar :=
    List.filter_eq_self.mpr (fun a ha => by simp [(haux a ha).1])
  have h1 : cleanChars ((cleanChars x.data).map lowerChar) =
      (cleanChars x.data).map lowerChar := by
    show List.filter allowedIdChar
        (List.filter (fun c => !isPyWsCh c) ((cleanChars x.data).map lowerChar)) =
      (cleanChars x.data).map lowerChar
    rw [hv]
    exact List.filter_eq_self.mpr (fun a ha => (haux a ha).2.1)
  rw [h1, List.map_congr_left (fun a ha => (haux a ha).2.2), List.map_id']

/-- Every character of a sanitized string lies in the allowed class. -/
theorem sanitizeId_chars_allowed (x : String) :
    ∀ c ∈ (sanitizeId x).data, allowedIdChar c = true := by
  intro c hc
  simp only [sanitizeId, data_mk] at hc
  exact (sanitize_fix_aux x c hc).2.1

theorem colon_not_mem_sanitizeId (x : String) : ':' ∉ (sanitizeId x).data := by
  intro hc
  have := sanitizeId_chars_allowed x ':' hc
  simp [allowedIdChar] at this

/-- Splitting at the last colon is unambiguous when the suffix is
colon-free. -/
theorem colon_split_inj (l1 r1 l2 r2 : List Char)
    (h1 : ':' ∉ r1) (h2 : ':' ∉ r2)
    (he : l1 ++ ':' :: r1 = l2 ++ ':' :: r2) : l1 = l2 ∧ r1 = r2 := by
  induction l1 generalizing l2 with
  | nil =>
    cases l2 with
    | nil => simpa using he
    | cons c l2' =>
      simp only [List.nil_append, List.cons_append, List.cons.injEq] at he
      exfalso
      apply h1
      rw [he.2]
      exact List.mem_append_right _ (List.mem_cons_self _ _)
  | cons c l1' ih =>
    cases l2 with
    | nil =>
      simp only [List.cons_append, List.nil_append, List.cons.injEq] at he
      exfalso
      apply h2
      rw [← he.2]
      exact List.mem_append_right _ (List.mem_cons_self _ _)
    | cons d l2' =>
      simp only [List.cons_append, List.cons.injEq] at he
      obtain ⟨hcd, he2⟩ := he
      obtain ⟨hl, hr⟩ := ih l2' he2
      exact ⟨by rw [hcd, hl], hr⟩

/-- The dedup-key string `f"{type}:{sanitized}"` determines the pair
`(type, canonicalized name)`: the sanitized part is colon-free, so the
concatenation is injective.  The string key the code uses is therefore
equivalent to the spec's pair key. -/
theorem entityKey_inj (t1 n1 t2 n2 : String)
    (h : entityKey t1 n1 = entityKey t2 n2) :
    t1 = t2 ∧ sanitizeId n1 = sanitizeId n2 := by
  have hd : t1.data ++ ':' :: (sanitizeId n1).data =
      t2.data ++ ':' :: (sanitizeId n2).data := by
    have := congrArg String.data h
    simpa [entityKey, String.data_append] using this
  obtain ⟨hl, hr⟩ := colon_split_inj _ _ _ _
    (colon_not_mem_sanitizeId n1) (colon_not_mem_sanitizeId n2) hd
  exact ⟨String.ext hl, String.ext hr⟩

/-! ## Shape of the ingestion steps -/

theorem entLookup_mem {es : List (String × SchemaOrgEntity)} {k : String}
    {e : SchemaOrgEntity} (h : entLookup es k = some e) : ∃ p ∈ es, p.2 = e := by
  induction es with
  | nil => cases h
  | cons hd tl ih =>
    unfold entLookup at h
    by_cases hk : hd.1 = k
    · obtain ⟨k2, e2⟩ := hd
      rw [if_pos (show k2 = k from hk)] at h
      exact ⟨(k2, e2), List.mem_cons_self _ _, Option.some.inj h⟩
    · obtain ⟨k2, e2⟩ := hd
      simp only [if_neg hk] at h
      obtain ⟨p, hp, hpe⟩ := ih h
      exact ⟨p, List.mem_cons_of_mem _ hp, hpe⟩

/-- A successful entity-loop iteration never touches relations or
texts, and either leaves the Entity Store unchanged (duplicate key) or
appends one entry. -/
theorem addEntityDatum_ok_shape (kg : KG) (ed : JValue) (kg2 : KG)
    (h : addEntityDatum kg ed = Except.ok kg2) :
    kg2.relations = kg.relations ∧ kg2.texts = kg.texts ∧
      (kg2.entities = kg.entities ∨ ∃ x, kg2.entities = kg.entities ++ [x]) := by
  unfold addEntityDatum at h
  cases h1 : pySubscript ed "name" <;> rw [h1] at h <;>
    simp only [Bind.bind, Except.bind] at h
  case error => cases h
  case ok nameV =>
  cases h2 : pySubscript ed "type" <;> rw [h2] at h <;>
    simp only [Bind.bind, Except.bind] at h
  case error => cases h
  case ok tyV =>
  cases h3 : pyGetAttrD ed "properties" (JValue.obj []) <;> rw [h3] at h <;>
    simp only [Bind.bind, Except.bind] at h
  case error => cases h
  case ok propsV =>
  cases h4 : asStr nameV <;> rw [h4] at h <;>
    simp only [Bind.bind, Except.bind] at h
  case error => cases h
  case ok name =>
  cases h5 : asStr tyV <;> rw [h5] at h <;>
    simp only [Bind.bind, Except.bind] at h
  case error => cases h
  case ok ty =>
  cases h6 : asPropsDict propsV <;> rw [h6] at h <;>
    simp only [Bind.bind, Except.bind] at h
  case error => cases h
  case ok props =>
  split at h <;>
    simp only [pure, Except.pure, Except.ok.injEq] at h <;> subst h <;> simp

/-- A successful relation-loop iteration never touches entities or
texts, and either leaves the Relation Store unchanged or appends one
relation whose endpoint ids belong to stored entities. -/
theorem addRelDatum_ok_shape (kg : KG) (rd : JValue) (kg2 : KG)
    (h : addRelDatum kg rd = Except.ok kg2) :
    kg2.entities = kg.entities ∧ kg2.texts = kg.texts ∧
      (kg2.relations = kg.relations ∨ ∃ r, kg2.relations = kg.relations ++ [r] ∧
        (∃ p ∈ kg.entities, p.2.entity_id = r.subject_id) ∧
        (∃ p ∈ kg.entities, p.2.entity_id = r.object_id)) := by
  unfold addRelDatum at h
  cases h1 : pySubscript rd "subject" <;> rw [h1] at h <;>
    simp only [Bind.bind, Except.bind] at h
  case error => cases h
  case ok sV =>
  cases h2 : asReStr sV <;> rw [h2] at h <;>
    simp only [Bind.bind, Except.bind] at h
  case error => cases h
  case ok s =>
  cases h3 : pySubscript rd "object" <;> rw [h3] at h <;>
    simp only [Bind.bind, Except.bind] at h
  case error => cases h
  case ok oV =>
  cases h4 : asReStr oV <;> rw [h4] at h <;>
    simp only [Bind.bind, Except.bind] at h
  case error => cases h
  case ok o =>
  split at h
  case h_2 =>
    simp only [pure, Except.pure, Except.ok.injEq] at h
    subst h
    simp
  case h_1 sk okk hs ho =>
  split at h
  case h_1 => cases h
  case h_2 se hse =>
  cases h8 : pySubscript rd "predicate" <;> rw [h8] at h <;>
    simp only [Bind.bind, Except.bind] at h
  case error => cases h
  case ok pV =>
  split at h
  case h_1 => cases h
  case h_2 oe hoe =>
  cases h10 : asStr pV <;> rw [h10] at h <;>
    simp only [Bind.bind, Except.bind] at h
  case error => cases h
  case ok p =>
  simp only [pure, Except.pure, Except.ok.injEq] at h
  subst h
  refine ⟨rfl, rfl, Or.inr ⟨_, rfl, ?_, ?_⟩⟩
  · obtain ⟨pr, hpr, hpe⟩ := entLookup_mem hse
    exact ⟨pr, hpr, by rw [hpe]⟩
  · obtain ⟨pr, hpr, hpe⟩ := entLookup_mem hoe
    exact ⟨pr, hpr, by rw [hpe]⟩

/-! ## Loop lemmas and the referential-integrity invariant -/

theorem foldE_preserves (f : KG → JValue → Except PyErr KG) (P : KG → Prop)
    (hf : ∀ kg x kg2, P kg → f kg x = Except.ok kg2 → P kg2) :
    ∀ l kg, P kg → P (resultState (foldE f kg l)) := by
  intro l
  induction l with
  | nil => intro kg h; exact h
  | cons x xs ih =>
    intro kg h
    simp only [foldE]
    cases hx : f kg x with
    | error e => simp only [hx]; exact h
    | ok kg2 => simp only [hx]; exact ih kg2 (hf kg x kg2 h hx)

theorem foldE_ok_preserves (f : KG → JValue → Except PyErr KG) (P : KG → Prop)
    (hf : ∀ kg x kg2, P kg → f kg x = Except.ok kg2 → P kg2) :
    ∀ l kg kg2, P kg → foldE f kg l = Except.ok kg2 → P kg2 := by
  intro l
  induction l with
  | nil =>
    intro kg kg2 h heq
    injection heq with hk
    exact hk ▸ h
  | cons x xs ih =>
    intro kg kg2 h heq
    simp only [foldE] at heq
    cases hx : f kg x with
    | error e => rw [hx] at heq; cases heq
    | ok kgm => rw [hx] at heq; exact ih kgm kg2 (hf kg x kgm h hx) heq

theorem addEntityDatum_pres (kg : KG) (x : JValue) (kg2 : KG)
    (h : RefIntegrity kg) (hx : addEntityDatum kg x = Except.ok kg2) :
    RefIntegrity kg2 := by
  obtain ⟨hrel, -, hent⟩ := addEntityDatum_ok_shape kg x kg2 hx
  intro r hr
  rw [hrel] at hr
  obtain ⟨⟨ps, hps, hps2⟩, ⟨po, hpo, hpo2⟩⟩ := h r hr
  cases hent with
  | inl he => exact ⟨⟨ps, he ▸ hps, hps2⟩, ⟨po, he ▸ hpo, hpo2⟩⟩
  | inr he =>
    obtain ⟨y, hy⟩ := he
    exact ⟨⟨ps, hy ▸ List.mem_append_left _ hps, hps2⟩,
           ⟨po, hy ▸ List.mem_append_left _ hpo, hpo2⟩⟩

theorem addRelDatum_pres (kg : KG) (x : JValue) (kg2 : KG)
    (h : RefIntegrity kg) (hx : addRelDatum kg x = Except.ok kg2) :
    RefIntegrity kg2 := by
  obtain ⟨hent, -, hrel⟩ := addRelDatum_ok_shape kg x kg2 hx
  intro r hr
  cases hrel with
  | inl he =>
    rw [he] at hr
    obtain ⟨⟨ps, hps, hps2⟩, ⟨po, hpo, hpo2⟩⟩ := h r hr
    exact ⟨⟨ps, hent ▸ hps, hps2⟩, ⟨po, hent ▸ hpo, hpo2⟩⟩
  | inr he =>
    obtain ⟨rnew, hreq, hs, ho⟩ := he
    rw [hreq] at hr
    rcases List.mem_append.mp hr with hold | hnew
    · obtain ⟨⟨ps, hps, hps2⟩, ⟨po, hpo, hpo2⟩⟩ := h r hold
      exact ⟨⟨ps, hent ▸ hps, hps2⟩, ⟨po, hent ▸ hpo, hpo2⟩⟩
    · have hrn : r = rnew := by simpa using hnew
      subst hrn
      obtain ⟨ps, hps, hps2⟩ := hs
      obtain ⟨po, hpo, hpo2⟩ := ho
      exact ⟨⟨ps, hent ▸ hps, hps2⟩, ⟨po, hent ▸ hpo, hpo2⟩⟩

theorem ingestEntities_pres (kg : KG) (es : JValue) (h : RefIntegrity kg) :
    RefIntegrity (resultState (ingestEntities kg es)) := by
  unfold ingestEntities
  cases hie : pyIter es with
  | error e => exact h
  | ok elist =>
    exact foldE_preserves addEntityDatum RefIntegrity addEntityDatum_pres elist kg h

theorem ingestEntities_ok_pres (kg : KG) (es : JValue) (kg2 : KG)
    (h : RefIntegrity kg) (heq : ingestEntities kg es = Except.ok kg2) :
    RefIntegrity kg2 := by
  unfold ingestEntities at heq
  cases hie : pyIter es with
  | error e => rw [hie] at heq; cases heq
  | ok elist =>
    rw [hie] at heq
    exact foldE_ok_preserves addEntityDatum RefIntegrity addEntityDatum_pres
      elist kg kg2 h heq

theorem ingestRelations_pres (kg : KG) (rs : JValue) (h : RefIntegrity kg) :
    RefIntegrity (resultState (ingestRelations kg rs)) := by
  unfold ingestRelations
  cases hir : pyIter rs with
  | error e => exact h
  | ok rlist =>
    exact foldE_preserves addRelDatum RefIntegrity addRelDatum_pres rlist kg h

theorem addText_eq_error (kg : KG) (t resp : String) (e : PyErr)
    (hpr : parseResponse resp = Except.error e) :
    addText kg t resp = Except.error ({ kg with texts := kg.texts ++ [t] }, e) := by
  unfold addText
  rw [hpr]

theorem addText_eq_ok (kg : KG) (t resp : String) (es rs : JValue)
    (hpr : parseResponse resp = Except.ok (es, rs)) :
    addText kg t resp =
      (match ingestEntities { kg with texts := kg.texts ++ [t] } es with
       | Except.error p => Except.error p
       | Except.ok kg2 => ingestRelations kg2 rs) := by
  unfold addText
  rw [hpr]

theorem refIntegrity_addText (kg : KG) (t resp : String) (h : RefIntegrity kg) :
    RefIntegrity (resultState (addText kg t resp)) := by
  have h1 : RefIntegrity { kg with texts := kg.texts ++ [t] } := fun r hr => h r hr
  cases hpr : parseResponse resp with
  | error e => rw [addText_eq_error kg t resp e hpr]; exact h1
  | ok pr =>
    obtain ⟨es, rs⟩ := pr
    rw [addText_eq_ok kg t resp es rs hpr]
    cases hin : ingestEntities { kg with texts := kg.texts ++ [t] } es with
    | error p =>
      have := ingestEntities_pres { kg with texts := kg.texts ++ [t] } es h1
      rw [hin] at this
      exact this
    | ok kg2 =>
      exact ingestRelations_pres kg2 rs
        (ingestEntities_ok_pres { kg with texts := kg.texts ++ [t] } es kg2 h1 hin)

/-- A relation candidate whose subject or object name does not resolve
leaves the whole state untouched (the `if subject_key and object_key`
guard fails, or an error is raised before any mutation). -/
theorem relDatumState_unresolved (kg : KG) (rd : JValue)
    (h : (∃ s, pySubscript rd "subject" = Except.ok (JValue.str s) ∧
            findEntityKey kg.entities s = none) ∨
         (∃ o, pySubscript rd "object" = Except.ok (JValue.str o) ∧
            findEntityKey kg.entities o = none)) :
    relDatumState kg rd = kg := by
  unfold relDatumState
  cases hrd : addRelDatum kg rd with
  | error e => rfl
  | ok kg2 =>
    unfold addRelDatum at hrd
    cases h1 : pySubscript rd "subject" <;> rw [h1] at hrd <;>
      simp only [Bind.bind, Except.bind] at hrd
    case error => cases hrd
    case ok sV =>
    cases h2 : asReStr sV <;> rw [h2] at hrd <;>
      simp only [Bind.bind, Except.bind] at hrd
    case error => cases hrd
    case ok s =>
    cases h3 : pySubscript rd "object" <;> rw [h3] at hrd <;>
      simp only [Bind.bind, Except.bind] at hrd
    case error => cases hrd
    case ok oV =>
    cases h4 : asReStr oV <;> rw [h4] at hrd <;>
      simp only [Bind.bind, Except.bind] at hrd
    case error => cases hrd
    case ok o =>
    split at hrd
    case h_2 =>
      simp only [pure, Except.pure, Except.ok.injEq] at hrd
      exact hrd.symm
    case h_1 sk okk hs ho =>
      exfalso
      rcases h with ⟨s0, hsub, hfind⟩ | ⟨o0, hsub, hfind⟩
      · rw [h1] at hsub
        injection hsub with hv
        subst hv
        simp only [asReStr, Except.ok.injEq] at h2
        subst h2
        rw [hfind] at hs
        cases hs
      · rw [h3] at hsub
        injection hsub with hv
        subst hv
        simp only [asReStr, Except.ok.injEq] at h4
        subst h4
        rw [hfind] at ho
        cases ho

/-- Ingesting an entity record whose dedup key is already stored only
draws (and discards) a fresh uuid: the three stores are unchanged. -/
theorem addEntityDatum_dup (kg : KG) (name2 ty : String)
    (props : List (String × JValue))
    (hpresent : containsKey kg.entities (entityKey ty name2) = true) :
    addEntityDatum kg
      (JValue.obj [("name", JValue.str name2), ("type", JValue.str ty),
                   ("properties", JValue.obj props)]) =
      Except.ok { kg with nextId := kg.nextId + 1 } := by
  unfold addEntityDatum
  simp only [pySubscript, pyGetAttrD, jDictGet, asStr, asPropsDict,
    Bind.bind, Except.bind, reduceIte, String.reduceEq]
  simp only [show containsKey kg.entities (entityKey ty name2) = true from hpresent,
    if_true]
  rfl

theorem findEntityKey_none_iff (es : List (String × SchemaOrgEntity)) (q : String) :
    (findEntityKey es q = none ↔ ∀ p ∈ es, sanitizeId p.2.name ≠ sanitizeId q) := by
  induction es with
  | nil => simp [findEntityKey]
  | cons hd tl ih =>
    obtain ⟨k, e⟩ := hd
    show (if sanitizeId e.name = sanitizeId q then some k else findEntityKey tl q) =
        none ↔ _
    by_cases hm : sanitizeId e.name = sanitizeId q
    · rw [if_pos hm]
      constructor
      · intro h; cases h
      · intro h
        exact absurd hm (by simpa using h (k, e) (List.mem_cons_self _ _))
    · rw [if_neg hm]
      constructor
      · intro h p hp
        rcases List.mem_cons.mp hp with rfl | hp2
        · simpa using hm
        · exact (ih.mp h) p hp2
      · intro h
        exact ih.mpr (fun p hp => h p (List.mem_cons_of_mem _ hp))

theorem findEntityKey_first (es : List (String × SchemaOrgEntity)) (q : String) :
    ∀ es1 k e es2, es = es1 ++ (k, e) :: es2 →
      sanitizeId e.name = sanitizeId q →
      (∀ p ∈ es1, sanitizeId p.2.name ≠ sanitizeId q) →
      findEntityKey es q = some k := by
  intro es1
  induction es1 generalizing es with
  | nil =>
    intro k e es2 heq hm _
    subst heq
    show (if sanitizeId e.name = sanitizeId q then some k else findEntityKey es2 q) =
      some k
    rw [if_pos hm]
  | cons p es1' ih =>
    intro k e es2 heq hm hpre
    subst heq
    obtain ⟨pk, pe⟩ := p
    show (if sanitizeId pe.name = sanitizeId q then some pk
          else findEntityKey (es1' ++ (k, e) :: es2) q) = some k
    rw [if_neg (by simpa using hpre (pk, pe) (List.mem_cons_self _ _))]
    exact ih _ k e es2 rfl hm (fun p hp => hpre p (List.mem_cons_of_mem _ hp))

/-! ## Claim theorems -/

/-- C1: Referential integrity — every relation appended during
ingestion references entity ids present in the Entity Store at the
moment it is created (so the invariant is preserved by every `add_text`
call, raising or not), and a relation candidate whose subject or object
name fails to resolve is rejected and not stored. -/
theorem claim_C1_referential_integrity (kg : KG) (text response : String)
    (h : RefIntegrity kg) :
    RefIntegrity (resultState (addText kg text response)) ∧
    ∀ rd : JValue,
      ((∃ s, pySubscript rd "subject" = Except.ok (JValue.str s) ∧
          findEntityKey kg.entities s = none) ∨
       (∃ o, pySubscript rd "object" = Except.ok (JValue.str o) ∧
          findEntityKey kg.entities o = none)) →
      relDatumState kg rd = kg :=
  ⟨refIntegrity_addText kg text response h,
   fun rd hun => relDatumState_unresolved kg rd hun⟩

/-- C1 witness at the empty graph and a concrete Oracle response. -/
theorem claim_C1_referential_integrity_witness :
    RefIntegrity emptyKG ∧
    RefIntegrity (resultState (addText emptyKG "hello" "not structured")) :=
  ⟨fun r hr => absurd hr (by simp [emptyKG]),
   (claim_C1_referential_integrity emptyKG "hello" "not structured"
      (fun r hr => absurd hr (by simp [emptyKG]))).1⟩

/-- C2: Dedup idempotence — if the dedup key `(type, canonicalize(name))`
is already present (the string key the code uses is injective in that
pair, first conjunct), ingesting any entity record with the same type
and a name with the same canonical form leaves the Entity Store, the
Relation Store and the text log unchanged: the stored entity keeps its
`entity_id` and its properties, and the duplicate's properties are
discarded (only the fresh-uuid counter advanced). -/
theorem claim_C2_dedup_idempotent (kg : KG) (name name2 ty : String)
    (props : List (String × JValue))
    (hsan : sanitizeId name2 = sanitizeId name)
    (hpresent : containsKey kg.entities (entityKey ty name) = true) :
    (∀ t2 n2, entityKey t2 n2 = entityKey ty name →
      t2 = ty ∧ sanitizeId n2 = sanitizeId name) ∧
    addEntityDatum kg
      (JValue.obj [("name", JValue.str name2), ("type", JValue.str ty),
                   ("properties", JValue.obj props)]) =
      Except.ok { kg with nextId := kg.nextId + 1 } := by
  refine ⟨fun t2 n2 hk => entityKey_inj t2 n2 ty name hk, ?_⟩
  have hkey : entityKey ty name2 = entityKey ty name := by
    unfold entityKey
    rw [hsan]
  exact addEntityDatum_dup kg name2 ty props (hkey ▸ hpresent)

/-- C2 witness: a store holding `Alice : Person`; re-ingesting
`"  ALICE "` with other properties changes nothing but the uuid
counter. -/
theorem claim_C2_dedup_idempotent_witness :
    sanitizeId "  ALICE " = sanitizeId "Alice" ∧
    containsKey
      [("Person:alice",
        ⟨"id-0", "Alice", "Person", "https://schema.org/Person", []⟩)]
      (entityKey "Person" "Alice") = true ∧
    addEntityDatum
      ⟨[("Person:alice",
         ⟨"id-0", "Alice", "Person", "https://schema.org/Person", []⟩)], [], ["t"], 1⟩
      (JValue.obj [("name", JValue.str "  ALICE "), ("type", JValue.str "Person"),
                   ("properties", JValue.obj [("jobTitle", JValue.str "CEO")])]) =
      Except.ok
        ⟨[("Person:alice",
           ⟨"id-0", "Alice", "Person", "https://schema.org/Person", []⟩)], [], ["t"], 2⟩ :=
  ⟨rfl, rfl,
   (claim_C2_dedup_idempotent
      ⟨[("Person:alice",
         ⟨"id-0", "Alice", "Person", "https://schema.org/Person", []⟩)], [], ["t"], 1⟩
      "Alice" "  ALICE " "Person" [("jobTitle", JValue.str "CEO")] rfl rfl).2⟩

/-- C5: `canonicalize` (`_sanitize_id`) is total — the empty string is a
valid output — and idempotent. -/
theorem claim_C5_canonicalize_total_idempotent :
    sanitizeId "" = "" ∧ ∀ x : String, sanitizeId (sanitizeId x) = sanitizeId x :=
  ⟨rfl, sanitizeId_idem⟩

/-- C6: `find_by_name` (`_find_entity_key`) canonicalizes the query and
scans stored entities in insertion order: it reports not-found exactly
when no stored entity's canonicalized name matches, and otherwise
returns the first match irrespective of type (so a cross-type collision
resolves to whichever entity was stored first). -/
theorem claim_C6_find_by_name (es : List (String × SchemaOrgEntity)) (q : String) :
    (findEntityKey es q = none ↔ ∀ p ∈ es, sanitizeId p.2.name ≠ sanitizeId q) ∧
    (∀ es1 k e es2, es = es1 ++ (k, e) :: es2 →
      sanitizeId e.name = sanitizeId q →
      (∀ p ∈ es1, sanitizeId p.2.name ≠ sanitizeId q) →
      findEntityKey es q = some k) :=
  ⟨findEntityKey_none_iff es q, findEntityKey_first es q⟩

/-! ## Parse-failure degradation and reachable-state guards -/

theorem parseResponse_decode_fail (resp : String)
    (h : jsonLoads (pyStrip (stripMarkdown resp)) = none) :
    parseResponse resp = Except.ok (JValue.arr [], JValue.arr []) := by
  unfold parseResponse
  rw [h]

theorem addText_decode_fail (kg : KG) (t resp : String)
    (h : jsonLoads (pyStrip (stripMarkdown resp)) = none) :
    addText kg t resp = Except.ok { kg with texts := kg.texts ++ [t] } := by
  rw [addText_eq_ok kg t resp (JValue.arr []) (JValue.arr [])
    (parseResponse_decode_fail resp h)]
  rfl

theorem strDictGet_set_same (m : List (String × String)) (k v : String) :
    strDictGet (strDictSet m k v) k = some v := by
  induction m with
  | nil => simp [strDictSet, strDictGet]
  | cons hd tl ih =>
    obtain ⟨k2, v2⟩ := hd
    by_cases hk : k2 = k
    · simp [strDictSet, strDictGet, hk]
    · simp [strDictSet, strDictGet, hk, ih]

theorem strDictGet_set_other (m : List (String × String)) (k v k' : String)
    (h : k' ≠ k) : strDictGet (strDictSet m k v) k' = strDictGet m k' := by
  induction m with
  | nil =>
    show (if k = k' then some v else strDictGet [] k') = strDictGet [] k'
    rw [if_neg (fun he => h he.symm)]
  | cons hd tl ih =>
    obtain ⟨k2, v2⟩ := hd
    by_cases hk : k2 = k
    · subst hk
      have hne : ¬ k2 = k' := fun he => h he.symm
      simp [strDictSet, strDictGet, hne]
    · have hset : strDictSet ((k2, v2) :: tl) k v = (k2, v2) :: strDictSet tl k v := by
        simp [strDictSet, hk]
      rw [hset]
      show (if k2 = k' then some v2 else strDictGet (strDictSet tl k v) k') = _
      rw [ih]
      rfl

theorem uriMapFold_stable (es : List (String × SchemaOrgEntity))
    (m : List (String × String)) (i : String)
    (h : strDictGet m i = some (buildUri i)) :
    strDictGet
      (es.foldl (fun m p => strDictSet m p.2.entity_id (buildUri p.2.entity_id)) m)
      i = some (buildUri i) := by
  induction es generalizing m with
  | nil => exact h
  | cons p es' ih =>
    simp only [List.foldl_cons]
    apply ih
    by_cases hp : p.2.entity_id = i
    · rw [hp, strDictGet_set_same]
    · rw [strDictGet_set_other _ _ _ _ (fun he => hp he.symm)]
      exact h

theorem uriMapFold_lookup (es : List (String × SchemaOrgEntity))
    (m : List (String × String)) (i : String)
    (h : ∃ p ∈ es, p.2.entity_id = i) :
    strDictGet
      (es.foldl (fun m p => strDictSet m p.2.entity_id (buildUri p.2.entity_id)) m)
      i = some (buildUri i) := by
  induction es generalizing m with
  | nil => simp at h
  | cons p es' ih =>
    simp only [List.foldl_cons]
    obtain ⟨q, hq, hqi⟩ := h
    rcases List.mem_cons.mp hq with rfl | hq2
    · by_cases hrest : ∃ p ∈ es', p.2.entity_id = i
      · exact ih _ hrest
      · apply uriMapFold_stable
        rw [← hqi, strDictGet_set_same]
    · exact ih _ ⟨q, hq2, hqi⟩

/-- The uri map sends every stored entity id to its built uri. -/
theorem uriMapOf_lookup (kg : KG) (i : String)
    (h : ∃ p ∈ kg.entities, p.2.entity_id = i) :
    strDictGet (uriMapOf kg) i = some (buildUri i) :=
  uriMapFold_lookup kg.entities [] i h

theorem buildUri_ne_empty (i : String) : (buildUri i).isEmpty = false := by
  rw [show ((buildUri i).isEmpty = false) = ¬((buildUri i).isEmpty = true) from by simp]
  rw [String.isEmpty_iff]
  intro h
  have := congrArg String.data h
  simp [buildUri, String.data_append] at this

theorem findById_isSome (es : List (String × SchemaOrgEntity)) (i : String)
    (h : ∃ p ∈ es, p.2.entity_id = i) : (findById es i).isSome = true := by
  induction es with
  | nil => simp at h
  | cons p es' ih =>
    obtain ⟨q, hq, hqi⟩ := h
    unfold findById
    by_cases hp : p.2.entity_id = i
    · simp [hp]
    · obtain ⟨pk, pe⟩ := p
      simp only [if_neg hp]
      rcases List.mem_cons.mp hq with rfl | hq2
      · exact absurd hqi hp
      · exact ih ⟨q, hq2, hqi⟩

theorem reachable_refIntegrity (kg : KG) (h : Reachable kg) : RefIntegrity kg := by
  induction h with
  | empty => intro r hr; exact absurd hr (by simp [emptyKG])
  | step kg0 t resp _ ih => exact refIntegrity_addText kg0 t resp ih

/-- C3 counterexample: the Oracle response `"[]"` is valid JSON that is
not an object; `data.get("entities", [])` then raises `AttributeError`,
which the `except json.JSONDecodeError` handler does not catch, so
`add_text` raises to the caller (with the text already logged) —
refuting the claim that ingestion completes without raising for every
possible response string. -/
theorem claim_C3_no_raise_counterexample :
    addText emptyKG "t" "[]" =
      Except.error (⟨[], [], ["t"], 0⟩, PyErr.attributeError) := rfl

/-- C3 (amended): ingestion of a response that fails JSON decoding
completes without raising and degrades to a silent no-op for that text
unit; responses that decode to a non-object (or contain malformed
records) can raise `AttributeError` / `KeyError` / `TypeError` /
validation errors to the caller. -/
theorem claim_C3_silent_degradation_amended (kg : KG) (text response : String)
    (h : jsonLoads (pyStrip (stripMarkdown response)) = none) :
    ∃ kg2, addText kg text response = Except.ok kg2 ∧
      kg2.entities = kg.entities ∧ kg2.relations = kg.relations ∧
      kg2.texts = kg.texts ++ [text] :=
  ⟨{ kg with texts := kg.texts ++ [text] },
   addText_decode_fail kg text response h, rfl, rfl, rfl⟩

/-- C3 witness: a concrete undecodable response at a concrete state. -/
theorem claim_C3_silent_degradation_amended_witness :
    jsonLoads (pyStrip (stripMarkdown "%%%")) = none ∧
    ∃ kg2, addText emptyKG "t" "%%%" = Except.ok kg2 ∧
      kg2.entities = emptyKG.entities ∧ kg2.relations = emptyKG.relations ∧
      kg2.texts = emptyKG.texts ++ ["t"] :=
  ⟨rfl, claim_C3_silent_degradation_amended emptyKG "t" "%%%" rfl⟩

/-- C4: a response that fails strict parsing makes `_parse_response`
return `([], [])`, so the ingest call succeeds, adds no entity and no
relation, and still appends the text unit to the log. -/
theorem claim_C4_malformed_extraction_noop (kg : KG) (text response : String)
    (h : jsonLoads (pyStrip (stripMarkdown response)) = none) :
    parseResponse response = Except.ok (JValue.arr [], JValue.arr []) ∧
    addText kg text response = Except.ok { kg with texts := kg.texts ++ [text] } ∧
    (resultState (addText kg text response)).entities = kg.entities ∧
    (resultState (addText kg text response)).relations = kg.relations ∧
    (resultState (addText kg text response)).texts.length = kg.texts.length + 1 := by
  have h1 := parseResponse_decode_fail response h
  have h2 := addText_decode_fail kg text response h
  refine ⟨h1, h2, ?_, ?_, ?_⟩ <;> rw [h2] <;> simp [resultState]

/-- C4 witness: a concrete unparsable response. -/
theorem claim_C4_malformed_extraction_noop_witness :
    jsonLoads (pyStrip (stripMarkdown "oracle babble")) = none ∧
    addText emptyKG "u" "oracle babble" =
      Except.ok { emptyKG with texts := emptyKG.texts ++ ["u"] } :=
  ⟨rfl, (claim_C4_malformed_extraction_noop emptyKG "u" "oracle babble" rfl).2.1⟩

/-- C9: the linked-data export, the triple-text export and the
query-context construction are read-only — as state transformers they
return the state unchanged (the Python methods assign to no field of
`self`; the only assignment in `to_jsonld` targets fresh node dicts). -/
theorem claim_C9_readonly_frame (kg : KG) (question : String) :
    (toJsonldRun kg).1 = toJsonld kg ∧ (toJsonldRun kg).2 = kg ∧
    (toRdfRun kg).1 = toRdf kg ∧ (toRdfRun kg).2 = kg ∧
    (queryRun kg question).1 = queryPrompt kg question ∧
    (queryRun kg question).2 = kg :=
  ⟨rfl, rfl, rfl, rfl, rfl, rfl⟩

/-- C10: every reachable graph state satisfies referential integrity,
so for every stored relation the uri-map lookups in `to_jsonld` are
truthy (the skip branch is dead), the `next(...)` lookups in `query`
succeed (its skip branch is dead), and the unguarded `to_rdf` reference
tokens name sanitized ids of stored entities. -/
theorem claim_C10_guard_branches_unreachable (kg : KG) (h : Reachable kg) :
    RefIntegrity kg ∧
    ∀ r ∈ kg.relations,
      pyTruthyS (strDictGet (uriMapOf kg) r.subject_id) = true ∧
      pyTruthyS (strDictGet (uriMapOf kg) r.object_id) = true ∧
      (findById kg.entities r.subject_id).isSome = true ∧
      (findById kg.entities r.object_id).isSome = true ∧
      (∃ p ∈ kg.entities, sanitizeId p.2.entity_id = sanitizeId r.subject_id) ∧
      (∃ p ∈ kg.entities, sanitizeId p.2.entity_id = sanitizeId r.object_id) := by
  have hI := reachable_refIntegrity kg h
  refine ⟨hI, fun r hr => ?_⟩
  obtain ⟨hs, ho⟩ := hI r hr
  refine ⟨?_, ?_, findById_isSome _ _ hs, findById_isSome _ _ ho, ?_, ?_⟩
  · rw [uriMapOf_lookup kg _ hs]
    simp [pyTruthyS, buildUri_ne_empty]
  · rw [uriMapOf_lookup kg _ ho]
    simp [pyTruthyS, buildUri_ne_empty]
  · obtain ⟨p, hp, he⟩ := hs
    exact ⟨p, hp, by rw [he]⟩
  · obtain ⟨p, hp, he⟩ := ho
    exact ⟨p, hp, by rw [he]⟩

/-- C10 witness: a state reached by one ingestion call. -/
theorem claim_C10_guard_branches_unreachable_witness :
    Reachable (resultState (addText emptyKG "t" "x")) ∧
    RefIntegrity (resultState (addText emptyKG "t" "x")) :=
  ⟨Reachable.step emptyKG "t" "x" Reachable.empty,
   (claim_C10_guard_branches_unreachable _
      (Reachable.step emptyKG "t" "x" Reachable.empty)).1⟩

/-- C6 witness: `Alice : Person` stored before `ALICE : Organization`;
the query `"  alice "` resolves to the `Person` entry, the one stored
first, despite the type difference. -/
theorem claim_C6_find_by_name_witness :
    sanitizeId "Alice" = sanitizeId "  alice " ∧
    findEntityKey
      [("Person:alice", ⟨"id-0", "Alice", "Person", "u1", []⟩),
       ("Organization:alice", ⟨"id-1", "ALICE", "Organization", "u2", []⟩)]
      "  alice " = some "Person:alice" :=
  ⟨rfl,
   (claim_C6_find_by_name
      [("Person:alice", ⟨"id-0", "Alice", "Person", "u1", []⟩),
       ("Organization:alice", ⟨"id-1", "ALICE", "Organization", "u2", []⟩)]
      "  alice ").2
      [] "Person:alice" ⟨"id-0", "Alice", "Person", "u1", []⟩
      [("Organization:alice", ⟨"id-1", "ALICE", "Organization", "u2", []⟩)]
      rfl rfl (by simp)⟩

end KGC

namespace KGC

theorem setFirstNode_length (u : String) (upd : JNode → JNode) (g : List JNode) :
    (setFirstNode u upd g).length = g.length := by
  induction g with
  | nil => rfl
  | cons n rest ih =>
    unfold setFirstNode
    by_cases hn : nodeIdIs n u
    · simp [hn]
    · simp [hn, ih]

theorem applyRelation_length (um : List (String × String)) (g : List JNode)
    (r : SchemaOrgRelation) : (applyRelation um g r).length = g.length := by
  show (if (pyTruthyS (strDictGet um r.subject_id) &&
            pyTruthyS (strDictGet um r.object_id)) = true
        then setFirstNode ((strDictGet um r.subject_id).getD "")
          (fun n => jDictSet n r.predicate
            (JValue.obj [("@id", JValue.str ((strDictGet um r.object_id).getD ""))])) g
        else g).length = g.length
  split
  · exact setFirstNode_length _ _ _
  · rfl

theorem applyRels_length (um : List (String × String)) :
    ∀ (rels : List SchemaOrgRelation) (g : List JNode),
      (rels.foldl (applyRelation um) g).length = g.length := by
  intro rels
  induction rels with
  | nil => intro g; rfl
  | cons r rest ih =>
    intro g
    simp only [List.foldl_cons]
    rw [ih, applyRelation_length]

theorem toJsonldGraph_length (kg : KG) :
    (toJsonldGraph kg).length = kg.entities.length := by
  unfold toJsonldGraph
  rw [applyRels_length, List.length_map]

theorem mk_data_eta (s : String) : String.mk s.data = s := rfl

theorem splitNlAux_no_nl (a : List Char) (h : '\n' ∉ a) :
    ∀ b cur, splitNlAux (a ++ b) cur = splitNlAux b (a.reverse ++ cur) := by
  induction a with
  | nil => intro b cur; simp
  | cons c a' ih =>
    intro b cur
    have hc : ¬ c = '\n' := fun he => h (he ▸ List.mem_cons_self _ _)
    show (if c = '\n' then cur.reverse :: splitNlAux (a' ++ b) []
          else splitNlAux (a' ++ b) (c :: cur)) = _
    rw [if_neg hc, ih (fun hm => h (List.mem_cons_of_mem _ hm))]
    simp

theorem textLines_pyJoin (ls : List String) (hne : ls ≠ [])
    (h : ∀ l ∈ ls, '\n' ∉ l.data) : textLines (pyJoin "\n" ls) = ls := by
  induction ls with
  | nil => exact absurd rfl hne
  | cons x ls' ih =>
    cases ls' with
    | nil =>
      show (splitNlAux ((pyJoin "\n" [x]).data) []).map String.mk = [x]
      have hx : '\n' ∉ x.data := h x (List.mem_cons_self _ _)
      show (splitNlAux x.data []).map String.mk = [x]
      rw [show x.data = x.data ++ ([] : List Char) from by simp,
        splitNlAux_no_nl x.data hx]
      simp [splitNlAux, mk_data_eta]
    | cons y rest =>
      have hx : '\n' ∉ x.data := h x (List.mem_cons_self _ _)
      have hjoin : pyJoin "\n" (x :: y :: rest) = x ++ "\n" ++ pyJoin "\n" (y :: rest) := rfl
      show (splitNlAux ((pyJoin "\n" (x :: y :: rest)).data) []).map String.mk = _
      rw [hjoin]
      have hdata : (x ++ "\n" ++ pyJoin "\n" (y :: rest)).data =
          x.data ++ ('\n' :: (pyJoin "\n" (y :: rest)).data) := by
        simp [String.data_append]
      rw [hdata, splitNlAux_no_nl x.data hx]
      have hstep : splitNlAux ('\n' :: (pyJoin "\n" (y :: rest)).data)
            (x.data.reverse ++ []) =
          (x.data.reverse ++ []).reverse ::
            splitNlAux ((pyJoin "\n" (y :: rest)).data) [] := by
        simp [splitNlAux]
      rw [hstep]
      have ihy := ih (by simp) (fun l hl => h l (List.mem_cons_of_mem _ hl))
      unfold textLines at ihy
      simp only [List.map_cons, ihy]
      simp [mk_data_eta]

end KGC

namespace KGC

theorem isEmpty_false_of_data_cons {s : String} {c : Char} {l : List Char}
    (h : s.data = c :: l) : s.isEmpty = false := by
  cases he : s.isEmpty
  · rfl
  · rw [String.isEmpty_iff] at he
    rw [he] at h
    cases h

theorem kgPrefix_ne_empty (s : String) : ("kg:" ++ s).isEmpty = false :=
  isEmpty_false_of_data_cons (c := 'k') (l := 'g' :: ':' :: s.data)
    (by rw [String.data_append]; rfl)

theorem append_ne_empty_left (a b : String) (h : a.isEmpty = false) :
    (a ++ b).isEmpty = false := by
  cases hd : a.data with
  | nil =>
    exfalso
    have ha : a = "" := String.ext hd
    rw [ha] at h
    cases h
  | cons c l =>
    exact isEmpty_false_of_data_cons (c := c) (l := l ++ b.data)
      (by rw [String.data_append, hd]; rfl)

theorem nonEmptyLineCount_append (a b : List String) :
    nonEmptyLineCount (a ++ b) = nonEmptyLineCount a + nonEmptyLineCount b := by
  simp [nonEmptyLineCount, List.filter_append]

theorem nameLine_ne_empty (n : String) :
    ("    schema:name \"" ++ n ++ "\" .").isEmpty = false :=
  append_ne_empty_left _ _ (append_ne_empty_left _ _
    (isEmpty_false_of_data_cons (c := ' ')
      (l := "   schema:name \"".data) rfl))

theorem count_entity_blocks (es : List (String × SchemaOrgEntity)) :
    nonEmptyLineCount ((es.map (fun p =>
      ["kg:" ++ sanitizeId p.2.entity_id ++ " a schema:" ++ p.2.schema_type ++ " ;",
       "    schema:name \"" ++ p.2.name ++ "\" .", ""])).flatten) =
      2 * es.length := by
  induction es with
  | nil => rfl
  | cons p es' ih =>
    simp only [List.map_cons, List.flatten_cons]
    rw [nonEmptyLineCount_append, ih]
    have h1 : ("kg:" ++ sanitizeId p.2.entity_id ++ " a schema:" ++
        p.2.schema_type ++ " ;").isEmpty = false :=
      append_ne_empty_left _ _ (append_ne_empty_left _ _
        (append_ne_empty_left _ _ (kgPrefix_ne_empty _)))
    have h2 := nameLine_ne_empty p.2.name
    simp only [nonEmptyLineCount, List.filter_cons, h1, h2, Bool.not_false,
      Bool.not_true, reduceIte, Bool.false_eq_true, if_false, List.filter_nil,
      show (!String.isEmpty "") = false from rfl]
    simp only [List.length_cons, List.length_nil]
    omega

theorem count_rel_lines (rels : List SchemaOrgRelation) :
    nonEmptyLineCount (rels.map (fun r =>
      "kg:" ++ sanitizeId r.subject_id ++ " schema:" ++ r.predicate ++
      " kg:" ++ sanitizeId r.object_id ++ " .")) = rels.length := by
  induction rels with
  | nil => rfl
  | cons r rels' ih =>
    simp only [List.map_cons]
    have h1 : ("kg:" ++ sanitizeId r.subject_id ++ " schema:" ++ r.predicate ++
        " kg:" ++ sanitizeId r.object_id ++ " .").isEmpty = false :=
      append_ne_empty_left _ _ (append_ne_empty_left _ _
        (append_ne_empty_left _ _ (append_ne_empty_left _ _
          (append_ne_empty_left _ _ (kgPrefix_ne_empty _)))))
    simp only [nonEmptyLineCount, List.filter_cons, h1, Bool.not_false,
      reduceIte] at ih ⊢
    simp only [List.length_cons]
    omega

theorem count_rdfLines_drop2 (kg : KG) :
    nonEmptyLineCount ((toRdfLines kg).drop 2) =
      2 * kg.entities.length + kg.relations.length := by
  show nonEmptyLineCount ("" :: ((kg.entities.map _).flatten ++ kg.relations.map _)) = _
  have hz : nonEmptyLineCount ("" :: ((kg.entities.map (fun p =>
      ["kg:" ++ sanitizeId p.2.entity_id ++ " a schema:" ++ p.2.schema_type ++ " ;",
       "    schema:name \"" ++ p.2.name ++ "\" .", ""])).flatten ++
        kg.relations.map (fun r =>
      "kg:" ++ sanitizeId r.subject_id ++ " schema:" ++ r.predicate ++
      " kg:" ++ sanitizeId r.object_id ++ " ."))) =
      nonEmptyLineCount ((kg.entities.map (fun p =>
      ["kg:" ++ sanitizeId p.2.entity_id ++ " a schema:" ++ p.2.schema_type ++ " ;",
       "    schema:name \"" ++ p.2.name ++ "\" .", ""])).flatten) +
      nonEmptyLineCount (kg.relations.map (fun r =>
      "kg:" ++ sanitizeId r.subject_id ++ " schema:" ++ r.predicate ++
      " kg:" ++ sanitizeId r.object_id ++ " .")) := by
    simp only [nonEmptyLineCount, List.filter_cons, List.filter_append,
      List.length_append, show (!String.isEmpty "") = false from rfl,
      Bool.false_eq_true, if_false, reduceIte]
  rw [hz, count_entity_blocks, count_rel_lines]

end KGC

namespace KGC

theorem nl_not_mem_sanitizeId (x : String) : '\n' ∉ (sanitizeId x).data := by
  intro hc
  have := sanitizeId_chars_allowed x '\n' hc
  simp [allowedIdChar] at this

theorem toRdfLines_ne_nil (kg : KG) : toRdfLines kg ≠ [] := by
  simp [toRdfLines]

theorem toRdfLines_no_nl (kg : KG)
    (hname : ∀ p ∈ kg.entities, '\n' ∉ p.2.name.data ∧ '\n' ∉ p.2.schema_type.data)
    (hpred : ∀ r ∈ kg.relations, '\n' ∉ r.predicate.data) :
    ∀ l ∈ toRdfLines kg, '\n' ∉ l.data := by
  intro l hl
  simp only [toRdfLines, List.mem_append, List.mem_cons, List.mem_flatten,
    List.mem_map, List.not_mem_nil, or_false] at hl
  rcases hl with ((h1 | h2 | h3) | ⟨blk, ⟨p, hp, hblk⟩, hlb⟩) | ⟨r, hr, hlr⟩
  · subst h1; decide
  · subst h2; decide
  · subst h3; simp
  · subst hblk
    simp only [List.mem_cons, List.not_mem_nil, or_false] at hlb
    rcases hlb with h | h | h <;> subst h
    · simp only [String.data_append, List.mem_append]
      push_neg
      refine ⟨⟨⟨⟨by decide, nl_not_mem_sanitizeId _⟩, by decide⟩,
        (hname p hp).2⟩, by decide⟩
    · simp only [String.data_append, List.mem_append]
      push_neg
      exact ⟨⟨by decide, (hname p hp).1⟩, by decide⟩
    · simp
  · subst hlr
    simp only [String.data_append, List.mem_append]
    push_neg
    exact ⟨⟨⟨⟨⟨⟨by decide, nl_not_mem_sanitizeId _⟩, by decide⟩, hpred r hr⟩,
      by decide⟩, nl_not_mem_sanitizeId _⟩, by decide⟩

end KGC

namespace KGC

/-- C8 (amended): the `@graph` array of the linked-data export has
exactly one node per stored entity, for every graph state; and the
non-empty lines after the two header lines of the triple-text export
number `2 × |entities| + |relations|` provided no entity name, entity
type or relation predicate contains a newline (otherwise an embedded
newline changes the line count — see the counterexample). -/
theorem claim_C8_round_trip_sanity (kg : KG) :
    (toJsonldGraph kg).length = kg.entities.length ∧
    ((∀ p ∈ kg.entities, '\n' ∉ p.2.name.data ∧ '\n' ∉ p.2.schema_type.data) →
     (∀ r ∈ kg.relations, '\n' ∉ r.predicate.data) →
     nonEmptyLineCount ((textLines (toRdf kg)).drop 2) =
       2 * kg.entities.length + kg.relations.length) := by
  refine ⟨toJsonldGraph_length kg, fun hname hpred => ?_⟩
  have ht : textLines (toRdf kg) = toRdfLines kg :=
    textLines_pyJoin (toRdfLines kg) (toRdfLines_ne_nil kg)
      (toRdfLines_no_nl kg hname hpred)
  rw [ht, count_rdfLines_drop2]

/-- C8 witness: a one-entity, one-relation state with newline-free
fields, where the count is `2 × 1 + 1`. -/
theorem claim_C8_round_trip_sanity_witness :
    nonEmptyLineCount ((textLines (toRdf
      ⟨[("Person:alice", ⟨"id-0", "Alice", "Person", "https://schema.org/Person", []⟩)],
       [⟨"id-0", "worksFor", "https://schema.org/worksFor", "id-0"⟩], ["t"], 1⟩)).drop 2) =
      2 * 1 + 1 :=
  (claim_C8_round_trip_sanity
      ⟨[("Person:alice", ⟨"id-0", "Alice", "Person", "https://schema.org/Person", []⟩)],
       [⟨"id-0", "worksFor", "https://schema.org/worksFor", "id-0"⟩], ["t"], 1⟩).2 (by decide) (by decide)

/-- C8 counterexample: ingesting an entity whose JSON name is
`"a\nb"` (the state is reached by one `add_text` call from the empty
graph) makes the `schema:name` line of the triple-text export span two
lines, so the non-empty line count after the headers is `3` while
`2 × |entities| + |relations| = 2` — refuting the line-count equality
for arbitrary graph states. -/
theorem claim_C8_round_trip_counterexample :
    nonEmptyLineCount ((textLines (toRdf (resultState (addText emptyKG "t" "\x7b\"entities\": [\x7b\"name\": \"a\\nb\", \"type\": \"Person\"\x7d], \"relations\": []\x7d")))).drop 2) = 3 ∧
    2 * (resultState (addText emptyKG "t" "\x7b\"entities\": [\x7b\"name\": \"a\\nb\", \"type\": \"Person\"\x7d], \"relations\": []\x7d")).entities.length + (resultState (addText emptyKG "t" "\x7b\"entities\": [\x7b\"name\": \"a\\nb\", \"type\": \"Person\"\x7d], \"relations\": []\x7d")).relations.length = 2 ∧
    nonEmptyLineCount ((textLines (toRdf (resultState (addText emptyKG "t" "\x7b\"entities\": [\x7b\"name\": \"a\\nb\", \"type\": \"Person\"\x7d], \"relations\": []\x7d")))).drop 2) ≠
      2 * (resultState (addText emptyKG "t" "\x7b\"entities\": [\x7b\"name\": \"a\\nb\", \"type\": \"Person\"\x7d], \"relations\": []\x7d")).entities.length + (resultState (addText emptyKG "t" "\x7b\"entities\": [\x7b\"name\": \"a\\nb\", \"type\": \"Person\"\x7d], \"relations\": []\x7d")).relations.length := by
  refine ⟨rfl, rfl, ?_⟩
  intro h
  have h3 : (3 : Nat) = 2 :=
    (show nonEmptyLineCount ((textLines (toRdf (resultState (addText emptyKG "t" "\x7b\"entities\": [\x7b\"name\": \"a\\nb\", \"type\": \"Person\"\x7d], \"relations\": []\x7d")))).drop 2) = 3 from rfl) ▸
    (show 2 * (resultState (addText emptyKG "t" "\x7b\"entities\": [\x7b\"name\": \"a\\nb\", \"type\": \"Person\"\x7d], \"relations\": []\x7d")).entities.length + (resultState (addText emptyKG "t" "\x7b\"entities\": [\x7b\"name\": \"a\\nb\", \"type\": \"Person\"\x7d], \"relations\": []\x7d")).relations.length = 2 from rfl) ▸ h
  exact absurd h3 (by decide)

end KGC

namespace KGC

theorem jDictGet_set_same (n : JNode) (k : String) (v : JValue) :
    jDictGet (jDictSet n k v) k = some v := by
  induction n with
  | nil => simp [jDictSet, jDictGet]
  | cons hd tl ih =>
    obtain ⟨k2, v2⟩ := hd
    by_cases hk : k2 = k
    · simp [jDictSet, jDictGet, hk]
    · simp [jDictSet, jDictGet, hk, ih]

theorem jDictGet_set_other (n : JNode) (k : String) (v : JValue) (k' : String)
    (h : k' ≠ k) : jDictGet (jDictSet n k v) k' = jDictGet n k' := by
  induction n with
  | nil =>
    show (if k = k' then some v else jDictGet [] k') = jDictGet [] k'
    rw [if_neg (fun he => h he.symm)]
  | cons hd tl ih =>
    obtain ⟨k2, v2⟩ := hd
    by_cases hk : k2 = k
    · subst hk
      have hne : ¬ k2 = k' := fun he => h he.symm
      simp [jDictSet, jDictGet, hne]
    · have hset : jDictSet ((k2, v2) :: tl) k v = (k2, v2) :: jDictSet tl k v := by
        simp [jDictSet, hk]
      rw [hset]
      show (if k2 = k' then some v2 else jDictGet (jDictSet tl k v) k') = _
      rw [ih]
      rfl

theorem mem_keys_jDictSet (n : JNode) (k : String) (v : JValue) (a : String)
    (h : a ∈ (jDictSet n k v).map Prod.fst) : a ∈ n.map Prod.fst ∨ a = k := by
  induction n with
  | nil => simpa [jDictSet] using h
  | cons hd tl ih =>
    obtain ⟨k2, v2⟩ := hd
    by_cases hk : k2 = k
    · simp only [jDictSet, if_pos hk] at h
      exact Or.inl (by simpa using h)
    · simp only [jDictSet, if_neg hk, List.map_cons, List.mem_cons] at h ⊢
      rcases h with h | h
      · exact Or.inl (Or.inl h)
      · rcases ih h with h2 | h2
        · exact Or.inl (Or.inr h2)
        · exact Or.inr h2

theorem jDictSet_keys_nodup (n : JNode) (k : String) (v : JValue)
    (h : (n.map Prod.fst).Nodup) : ((jDictSet n k v).map Prod.fst).Nodup := by
  induction n with
  | nil => simp [jDictSet]
  | cons hd tl ih =>
    obtain ⟨k2, v2⟩ := hd
    simp only [List.map_cons, List.nodup_cons] at h
    by_cases hk : k2 = k
    · simp only [jDictSet, if_pos hk, List.map_cons, List.nodup_cons]
      exact h
    · simp only [jDictSet, if_neg hk, List.map_cons, List.nodup_cons]
      refine ⟨fun hmem => ?_, ih h.2⟩
      rcases mem_keys_jDictSet tl k v k2 hmem with h2 | h2
      · exact h.1 h2
      · exact hk h2

theorem filter_key_nil (n : JNode) (k : String) (h : k ∉ n.map Prod.fst) :
    n.filter (fun q => q.1 == k) = [] := by
  induction n with
  | nil => rfl
  | cons hd tl ih =>
    obtain ⟨k2, v2⟩ := hd
    simp only [List.map_cons, List.mem_cons] at h
    push_neg at h
    have hk2 : (k2 == k) = false :=
      beq_eq_false_iff_ne.mpr (fun he => h.1 he.symm)
    simp only [List.filter_cons, hk2, Bool.false_eq_true, if_false]
    exact ih h.2

theorem filter_set_same (n : JNode) (k : String) (v : JValue)
    (h : (n.map Prod.fst).Nodup) :
    (jDictSet n k v).filter (fun q => q.1 == k) = [(k, v)] := by
  induction n with
  | nil => simp [jDictSet]
  | cons hd tl ih =>
    obtain ⟨k2, v2⟩ := hd
    simp only [List.map_cons, List.nodup_cons] at h
    by_cases hk : k2 = k
    · subst hk
      simp only [jDictSet, if_pos rfl, List.filter_cons, beq_self_eq_true, if_true]
      rw [filter_key_nil tl k2 h.1]
    · have hk2 : (k2 == k) = false := by simp [hk]
      simp only [jDictSet, if_neg hk, List.filter_cons, hk2, Bool.false_eq_true,
        if_false]
      exact ih h.2

theorem filter_set_other (n : JNode) (k' : String) (v : JValue) (k : String)
    (h : k' ≠ k) :
    (jDictSet n k' v).filter (fun q => q.1 == k) = n.filter (fun q => q.1 == k) := by
  induction n with
  | nil =>
    have hk : (k' == k) = false := by simp [h]
    simp [jDictSet, hk]
  | cons hd tl ih =>
    obtain ⟨k2, v2⟩ := hd
    by_cases hk : k2 = k'
    · subst hk
      have hk2 : (k2 == k) = false := beq_eq_false_iff_ne.mpr h
      have hset : jDictSet ((k2, v2) :: tl) k2 v = (k2, v) :: tl := by
        simp [jDictSet]
      rw [hset]
      simp only [List.filter_cons, hk2, Bool.false_eq_true, if_false]
    · have hset : jDictSet ((k2, v2) :: tl) k' v = (k2, v2) :: jDictSet tl k' v := by
        simp [jDictSet, hk]
      rw [hset]
      simp only [List.filter_cons]
      rw [ih]

end KGC

namespace KGC

/-- The effect of one relation-loop iteration of `to_jsonld` on the
node whose `@id` is `uS`, extracted for the last-write-wins proof. -/
def writesTo (um : List (String × String)) (uS : String)
    (r : SchemaOrgRelation) : Bool :=
  pyTruthyS (strDictGet um r.subject_id) && pyTruthyS (strDictGet um r.object_id) &&
    ((strDictGet um r.subject_id).getD "" == uS)

def stepNode (um : List (String × String)) (uS : String) (n : JNode)
    (r : SchemaOrgRelation) : JNode :=
  if writesTo um uS r then
    jDictSet n r.predicate
      (JValue.obj [("@id", JValue.str ((strDictGet um r.object_id).getD ""))])
  else n

theorem nodeIdIs_jDictSet (n : JNode) (k : String) (v : JValue) (u : String)
    (hk : k ≠ "@id") : nodeIdIs (jDictSet n k v) u = nodeIdIs n u := by
  unfold nodeIdIs
  rw [jDictGet_set_other n k v "@id" (fun he => hk he.symm)]

theorem nodeIdIs_true_elim (n : JNode) (u : String)
    (h : nodeIdIs n u = true) : jDictGet n "@id" = some (JValue.str u) := by
  unfold nodeIdIs at h
  cases hg : jDictGet n "@id" with
  | none => rw [hg] at h; cases h
  | some v =>
    rw [hg] at h
    cases v <;> simp [jEqStr] at h
    subst h
    rfl

theorem stepNode_nodeIdIs (um : List (String × String)) (uS : String)
    (n : JNode) (r : SchemaOrgRelation) (u : String) (hpred : r.predicate ≠ "@id") :
    nodeIdIs (stepNode um uS n r) u = nodeIdIs n u := by
  unfold stepNode
  split
  · exact nodeIdIs_jDictSet n r.predicate _ u hpred
  · rfl

theorem stepNode_keys_nodup (um : List (String × String)) (uS : String)
    (n : JNode) (r : SchemaOrgRelation) (h : (n.map Prod.fst).Nodup) :
    ((stepNode um uS n r).map Prod.fst).Nodup := by
  unfold stepNode
  split
  · exact jDictSet_keys_nodup n r.predicate _ h
  · exact h

theorem setFirstNode_app_nomatch (u : String) (upd : JNode → JNode)
    (A : List JNode) (n : JNode) (B : List JNode)
    (hA : ∀ m ∈ A, nodeIdIs m u = false) (hn : nodeIdIs n u = true) :
    setFirstNode u upd (A ++ n :: B) = A ++ upd n :: B := by
  induction A with
  | nil =>
    show (if nodeIdIs n u then upd n :: B else n :: setFirstNode u upd B) = _
    rw [if_pos hn]
    rfl
  | cons a A' ih =>
    have ha : nodeIdIs a u = false := hA a (List.mem_cons_self _ _)
    show (if nodeIdIs a u then upd a :: (A' ++ n :: B)
          else a :: setFirstNode u upd (A' ++ n :: B)) = _
    rw [if_neg (by simp [ha]), ih (fun m hm => hA m (List.mem_cons_of_mem _ hm))]
    rfl

theorem setFirstNode_split (u : String) (upd : JNode → JNode)
    (A : List JNode) (n : JNode) (B : List JNode) (hn : nodeIdIs n u = false) :
    setFirstNode u upd (A ++ n :: B) = setFirstNode u upd A ++ n :: B ∨
    setFirstNode u upd (A ++ n :: B) = A ++ n :: setFirstNode u upd B := by
  induction A with
  | nil =>
    right
    show (if nodeIdIs n u then upd n :: B else n :: setFirstNode u upd B) = _
    rw [if_neg (by simp [hn])]
    rfl
  | cons a A' ih =>
    by_cases ha : nodeIdIs a u = true
    · left
      show (if nodeIdIs a u then upd a :: (A' ++ n :: B)
            else a :: setFirstNode u upd (A' ++ n :: B)) = _
      rw [if_pos ha]
      show _ = (if nodeIdIs a u then upd a :: A' else a :: setFirstNode u upd A') ++ n :: B
      rw [if_pos ha]
      rfl
    · have ha2 : nodeIdIs a u = false := by
        cases hv : nodeIdIs a u
        · rfl
        · exact absurd hv ha
      rcases ih with h | h
      · left
        show (if nodeIdIs a u then upd a :: (A' ++ n :: B)
              else a :: setFirstNode u upd (A' ++ n :: B)) = _
        rw [if_neg (by simp [ha2]), h]
        show _ = (if nodeIdIs a u then upd a :: A' else a :: setFirstNode u upd A') ++ n :: B
        rw [if_neg (by simp [ha2])]
        rfl
      · right
        show (if nodeIdIs a u then upd a :: (A' ++ n :: B)
              else a :: setFirstNode u upd (A' ++ n :: B)) = _
        rw [if_neg (by simp [ha2]), h]
        rfl

theorem setFirstNode_mem (u : String) (upd : JNode → JNode) (g : List JNode)
    (m' : JNode) (h : m' ∈ setFirstNode u upd g) :
    m' ∈ g ∨ ∃ m ∈ g, m' = upd m := by
  induction g with
  | nil => cases h
  | cons a g' ih =>
    by_cases ha : nodeIdIs a u = true
    · rw [show setFirstNode u upd (a :: g') = upd a :: g' from by
        show (if nodeIdIs a u then _ else _) = _
        rw [if_pos ha]] at h
      rcases List.mem_cons.mp h with rfl | h2
      · exact Or.inr ⟨a, List.mem_cons_self _ _, rfl⟩
      · exact Or.inl (List.mem_cons_of_mem _ h2)
    · rw [show setFirstNode u upd (a :: g') = a :: setFirstNode u upd g' from by
        show (if nodeIdIs a u then _ else _) = _
        rw [if_neg ha]] at h
      rcases List.mem_cons.mp h with rfl | h2
      · exact Or.inl (List.mem_cons_self _ _)
      · rcases ih h2 with h3 | ⟨m, hm, he⟩
        · exact Or.inl (List.mem_cons_of_mem _ h3)
        · exact Or.inr ⟨m, List.mem_cons_of_mem _ hm, he⟩

end KGC

namespace KGC

theorem applyRelation_decomp (um : List (String × String)) (uS : String)
    (r : SchemaOrgRelation) (A : List JNode) (n : JNode) (B : List JNode)
    (hpred : r.predicate ≠ "@id")
    (hA : ∀ m ∈ A, nodeIdIs m uS = false) (hB : ∀ m ∈ B, nodeIdIs m uS = false)
    (hn : nodeIdIs n uS = true) :
    ∃ A2 B2, applyRelation um (A ++ n :: B) r = A2 ++ stepNode um uS n r :: B2 ∧
      (∀ m ∈ A2, nodeIdIs m uS = false) ∧ (∀ m ∈ B2, nodeIdIs m uS = false) := by
  show ∃ A2 B2,
    (if (pyTruthyS (strDictGet um r.subject_id) &&
         pyTruthyS (strDictGet um r.object_id)) = true
     then setFirstNode ((strDictGet um r.subject_id).getD "")
       (fun nd => jDictSet nd r.predicate
         (JValue.obj [("@id", JValue.str ((strDictGet um r.object_id).getD ""))]))
       (A ++ n :: B)
     else A ++ n :: B) = A2 ++ stepNode um uS n r :: B2 ∧ _ ∧ _
  cases htr : (pyTruthyS (strDictGet um r.subject_id) &&
      pyTruthyS (strDictGet um r.object_id)) with
  | false =>
    rw [if_neg (by simp [htr])]
    have hw : writesTo um uS r = false := by
      unfold writesTo
      rw [htr]
      rfl
    refine ⟨A, B, ?_, hA, hB⟩
    rw [show stepNode um uS n r = n from by unfold stepNode; rw [hw]; rfl]
  | true =>
    rw [if_pos (by simp [htr])]
    by_cases hsu : (strDictGet um r.subject_id).getD "" = uS
    · have hw : writesTo um uS r = true := by
        unfold writesTo
        rw [htr, hsu]
        simp
      rw [hsu]
      rw [setFirstNode_app_nomatch uS _ A n B hA hn]
      refine ⟨A, B, ?_, hA, hB⟩
      rw [show stepNode um uS n r = jDictSet n r.predicate
        (JValue.obj [("@id", JValue.str ((strDictGet um r.object_id).getD ""))]) from by
          unfold stepNode; rw [hw]; rfl]
    · have hw : writesTo um uS r = false := by
        unfold writesTo
        rw [htr]
        simp [hsu]
      have hstep : stepNode um uS n r = n := by unfold stepNode; rw [hw]; rfl
      have hnsu : nodeIdIs n ((strDictGet um r.subject_id).getD "") = false := by
        unfold nodeIdIs
        rw [nodeIdIs_true_elim n uS hn]
        simp [jEqStr]
        exact fun he => hsu he.symm
      rcases setFirstNode_split ((strDictGet um r.subject_id).getD "") _ A n B hnsu
        with hsp | hsp
      · rw [hsp, hstep]
        refine ⟨_, B, rfl, ?_, hB⟩
        intro m hm
        rcases setFirstNode_mem _ _ A m hm with h2 | ⟨m0, hm0, he⟩
        · exact hA m h2
        · rw [he, nodeIdIs_jDictSet _ _ _ _ hpred]
          exact hA m0 hm0
      · rw [hsp, hstep]
        refine ⟨A, _, rfl, hA, ?_⟩
        intro m hm
        rcases setFirstNode_mem _ _ B m hm with h2 | ⟨m0, hm0, he⟩
        · exact hB m h2
        · rw [he, nodeIdIs_jDictSet _ _ _ _ hpred]
          exact hB m0 hm0

theorem applyRels_decomp (um : List (String × String)) (uS : String) :
    ∀ (rels : List SchemaOrgRelation) (A : List JNode) (n : JNode) (B : List JNode),
      (∀ r ∈ rels, r.predicate ≠ "@id") →
      (∀ m ∈ A, nodeIdIs m uS = false) → (∀ m ∈ B, nodeIdIs m uS = false) →
      nodeIdIs n uS = true →
      ∃ A2 B2, rels.foldl (applyRelation um) (A ++ n :: B) =
          A2 ++ (rels.foldl (stepNode um uS) n) :: B2 ∧
        (∀ m ∈ A2, nodeIdIs m uS = false) ∧ (∀ m ∈ B2, nodeIdIs m uS = false) ∧
        nodeIdIs (rels.foldl (stepNode um uS) n) uS = true := by
  intro rels
  induction rels with
  | nil =>
    intro A n B _ hA hB hn
    exact ⟨A, B, rfl, hA, hB, hn⟩
  | cons r rest ih =>
    intro A n B hpred hA hB hn
    obtain ⟨A1, B1, heq, hA1, hB1⟩ :=
      applyRelation_decomp um uS r A n B (hpred r (List.mem_cons_self _ _)) hA hB hn
    have hn1 : nodeIdIs (stepNode um uS n r) uS = true := by
      rw [stepNode_nodeIdIs um uS n r uS (hpred r (List.mem_cons_self _ _))]
      exact hn
    obtain ⟨A2, B2, heq2, hA2, hB2, hfin⟩ :=
      ih A1 (stepNode um uS n r) B1
        (fun q hq => hpred q (List.mem_cons_of_mem _ hq)) hA1 hB1 hn1
    refine ⟨A2, B2, ?_, hA2, hB2, hfin⟩
    simp only [List.foldl_cons]
    rw [heq, heq2]

end KGC

namespace KGC

theorem stepFold_keys_nodup (um : List (String × String)) (uS : String) :
    ∀ (rels : List SchemaOrgRelation) (n : JNode),
      (n.map Prod.fst).Nodup → ((rels.foldl (stepNode um uS) n).map Prod.fst).Nodup := by
  intro rels
  induction rels with
  | nil => intro n h; exact h
  | cons r rest ih =>
    intro n h
    simp only [List.foldl_cons]
    exact ih _ (stepNode_keys_nodup um uS n r h)

theorem stepFold_filter_last (um : List (String × String)) (uS p : String) :
    ∀ (rels : List SchemaOrgRelation) (n : JNode) (rl : SchemaOrgRelation),
      (n.map Prod.fst).Nodup →
      ((rels.filter (fun r => writesTo um uS r && (r.predicate == p))).getLast? =
        some rl) →
      (rels.foldl (stepNode um uS) n).filter (fun q => q.1 == p) =
        [(p, JValue.obj [("@id", JValue.str ((strDictGet um rl.object_id).getD ""))])] := by
  intro rels
  induction rels using List.reverseRecOn with
  | nil =>
    intro n rl _ hlast
    cases hlast
  | append_singleton l r ih =>
    intro n rl hnd hlast
    rw [List.foldl_append, List.foldl_cons, List.foldl_nil]
    rw [List.filter_append] at hlast
    cases hgr : (writesTo um uS r && (r.predicate == p)) with
    | true =>
      rw [show List.filter (fun r => writesTo um uS r && (r.predicate == p)) [r] =
          [r] from by simp [List.filter_cons, hgr]] at hlast
      rw [List.getLast?_concat] at hlast
      injection hlast with hrl
      subst hrl
      have hgr2 := hgr
      rw [Bool.and_eq_true] at hgr2
      have hw : writesTo um uS r = true := hgr2.1
      have hp : r.predicate = p := by simpa using hgr2.2
      rw [show stepNode um uS (List.foldl (stepNode um uS) n l) r =
          jDictSet (List.foldl (stepNode um uS) n l) r.predicate
            (JValue.obj [("@id", JValue.str ((strDictGet um r.object_id).getD ""))])
          from by unfold stepNode; rw [hw]; rfl]
      rw [hp]
      exact filter_set_same _ p _ (stepFold_keys_nodup um uS l n hnd)
    | false =>
      rw [show List.filter (fun r => writesTo um uS r && (r.predicate == p)) [r] =
          [] from by simp [List.filter_cons, hgr]] at hlast
      rw [List.append_nil] at hlast
      have hstep := ih n rl hnd hlast
      cases hw : writesTo um uS r with
      | false =>
        rw [show stepNode um uS (List.foldl (stepNode um uS) n l) r =
            List.foldl (stepNode um uS) n l from by unfold stepNode; rw [hw]; rfl]
        exact hstep
      | true =>
        have hp : (r.predicate == p) = false := by
          cases hpv : (r.predicate == p)
          · rfl
          · rw [hw, hpv] at hgr
            cases hgr
        rw [show stepNode um uS (List.foldl (stepNode um uS) n l) r =
            jDictSet (List.foldl (stepNode um uS) n l) r.predicate
              (JValue.obj [("@id", JValue.str ((strDictGet um r.object_id).getD ""))])
            from by unfold stepNode; rw [hw]; rfl]
        rw [filter_set_other _ _ _ _ (by simpa using hp)]
        exact hstep

end KGC

namespace KGC

theorem jDictGet_foldl_not_mem :
    ∀ (props : List (String × JValue)) (base : JNode) (k : String),
      k ∉ props.map Prod.fst →
      jDictGet (props.foldl (fun n q => jDictSet n q.1 q.2) base) k =
        jDictGet base k := by
  intro props
  induction props with
  | nil => intro base k _; rfl
  | cons q props' ih =>
    intro base k hk
    simp only [List.map_cons, List.mem_cons] at hk
    push_neg at hk
    simp only [List.foldl_cons]
    rw [ih _ k hk.2, jDictGet_set_other _ _ _ _ hk.1]

theorem mkNode_id (um : List (String × String)) (e : SchemaOrgEntity)
    (hid : "@id" ∉ e.properties.map Prod.fst)
    (hlk : strDictGet um e.entity_id = some (buildUri e.entity_id)) :
    jDictGet (mkNode um e) "@id" = some (JValue.str (buildUri e.entity_id)) := by
  unfold mkNode
  rw [jDictGet_foldl_not_mem e.properties _ "@id" hid]
  show some (JValue.str ((strDictGet um e.entity_id).getD "")) = _
  rw [hlk]
  rfl

theorem nodeIdIs_mkNode (um : List (String × String)) (e : SchemaOrgEntity)
    (u : String) (hid : "@id" ∉ e.properties.map Prod.fst)
    (hlk : strDictGet um e.entity_id = some (buildUri e.entity_id)) :
    nodeIdIs (mkNode um e) u = (buildUri e.entity_id == u) := by
  unfold nodeIdIs
  rw [mkNode_id um e hid hlk]
  rfl

theorem mkNode_keys_nodup (um : List (String × String)) (e : SchemaOrgEntity) :
    ((mkNode um e).map Prod.fst).Nodup := by
  unfold mkNode
  have hbase : (([("@id", JValue.str ((strDictGet um e.entity_id).getD "")),
      ("@type", JValue.str e.schema_type),
      ("name", JValue.str e.name)] : JNode).map Prod.fst).Nodup := by
    simp
  generalize hb : ([("@id", JValue.str ((strDictGet um e.entity_id).getD "")),
      ("@type", JValue.str e.schema_type),
      ("name", JValue.str e.name)] : JNode) = base at hbase ⊢
  clear hb
  induction e.properties generalizing base with
  | nil => exact hbase
  | cons q props' ih =>
    simp only [List.foldl_cons]
    exact ih _ (jDictSet_keys_nodup _ _ _ hbase)

end KGC

namespace KGC

theorem buildUri_inj_on_entities (kg : KG)
    (hnodup : (kg.entities.map (fun q => buildUri q.2.entity_id)).Nodup)
    (a b : String)
    (ha : ∃ q ∈ kg.entities, q.2.entity_id = a)
    (hb : ∃ q ∈ kg.entities, q.2.entity_id = b)
    (he : buildUri a = buildUri b) : a = b := by
  obtain ⟨qa, hqa, rfl⟩ := ha
  obtain ⟨qb, hqb, rfl⟩ := hb
  by_cases hab : qa = qb
  · rw [hab]
  · have hpw := List.pairwise_map.mp hnodup
    have hsym : Symmetric (fun (x y : String × SchemaOrgEntity) =>
        buildUri x.2.entity_id ≠ buildUri y.2.entity_id) :=
      fun x y hxy he2 => hxy he2.symm
    exact absurd he (List.Pairwise.forall hsym hpw hqa hqb hab)

/-- C7 (amended): last-write-wins in the linked-data export.  When two
or more stored relations share subject entity `s` and predicate `p`,
the subject's node carries exactly one nested reference under key `p`,
namely the `@id`-reference to the object uri of the relation latest in
store order — provided the store satisfies referential integrity with
pairwise-distinct entity uris (true of every state the assembler
builds), and provided neither relation predicates nor entity property
keys use the reserved name `"@id"` (the amendment: a predicate or
property named `"@id"` corrupts the node's identity and breaks the
overwrite, see the counterexample). -/
theorem claim_C7_last_write_wins (kg : KG) (s p : String) (rl : SchemaOrgRelation)
    (hI : RefIntegrity kg)
    (hnodup : (kg.entities.map (fun q => buildUri q.2.entity_id)).Nodup)
    (hprops : ∀ q ∈ kg.entities, "@id" ∉ q.2.properties.map Prod.fst)
    (hpredid : ∀ r ∈ kg.relations, r.predicate ≠ "@id")
    (hlen : 2 ≤ (kg.relations.filter
      (fun r => r.subject_id == s && r.predicate == p)).length)
    (hlast : (kg.relations.filter
      (fun r => r.subject_id == s && r.predicate == p)).getLast? = some rl) :
    ∃ n ∈ toJsonldGraph kg,
      nodeIdIs n (buildUri s) = true ∧
      (∀ m ∈ toJsonldGraph kg, nodeIdIs m (buildUri s) = true → m = n) ∧
      n.filter (fun q => q.1 == p) =
        [(p, JValue.obj [("@id", JValue.str (buildUri rl.object_id))])] := by
  -- the filtered list is nonempty: extract one relation with subject `s`
  have hne : kg.relations.filter
      (fun r => r.subject_id == s && r.predicate == p) ≠ [] := by
    intro hnil
    rw [hnil] at hlen
    cases hlen
  obtain ⟨r0, hr0f⟩ := List.exists_mem_of_ne_nil _ hne
  have hr0 := List.mem_filter.mp hr0f
  have hr0s : r0.subject_id = s := by
    have := hr0.2
    rw [Bool.and_eq_true] at this
    simpa using this.1
  have hr0p : r0.predicate = p := by
    have := hr0.2
    rw [Bool.and_eq_true] at this
    simpa using this.2
  have hpid : p ≠ "@id" := hr0p ▸ hpredid r0 hr0.1
  -- the subject is a stored entity
  obtain ⟨q, hq, hqs⟩ := (hI r0 hr0.1).1
  rw [hr0s] at hqs
  -- rl is one of the stored relations
  have hrlmem : rl ∈ kg.relations := by
    obtain ⟨hne2, heq⟩ := List.mem_getLast?_eq_getLast
      (show rl ∈ (kg.relations.filter
        (fun r => r.subject_id == s && r.predicate == p)).getLast? from by
          rw [hlast]; rfl)
    have : rl ∈ kg.relations.filter
        (fun r => r.subject_id == s && r.predicate == p) := by
      rw [heq]
      exact List.getLast_mem _
    exact (List.mem_filter.mp this).1
  -- uri-map lookups succeed for every stored id
  have hlk : ∀ i, (∃ e ∈ kg.entities, e.2.entity_id = i) →
      strDictGet (uriMapOf kg) i = some (buildUri i) := fun i hi =>
    uriMapOf_lookup kg i hi
  -- the writes-to test agrees with the claim's filter on stored relations
  have hfeq : kg.relations.filter
        (fun r => writesTo (uriMapOf kg) (buildUri s) r && (r.predicate == p)) =
      kg.relations.filter (fun r => r.subject_id == s && r.predicate == p) := by
    apply List.filter_congr
    intro r hr
    obtain ⟨hrs, hro⟩ := hI r hr
    have hlks := hlk r.subject_id hrs
    have hlko := hlk r.object_id hro
    have htr : pyTruthyS (strDictGet (uriMapOf kg) r.subject_id) = true := by
      rw [hlks]
      show !(buildUri r.subject_id).isEmpty = true
      rw [buildUri_ne_empty]
      rfl
    have hto : pyTruthyS (strDictGet (uriMapOf kg) r.object_id) = true := by
      rw [hlko]
      show !(buildUri r.object_id).isEmpty = true
      rw [buildUri_ne_empty]
      rfl
    have hgetd : (strDictGet (uriMapOf kg) r.subject_id).getD "" =
        buildUri r.subject_id := by rw [hlks]; rfl
    unfold writesTo
    rw [htr, hto, hgetd]
    have hcmp : (buildUri r.subject_id == buildUri s) = (r.subject_id == s) := by
      by_cases hss : r.subject_id = s
      · rw [hss]
        simp
      · have hbne : buildUri r.subject_id ≠ buildUri s := fun hbe =>
          hss (buildUri_inj_on_entities kg hnodup _ _ hrs ⟨q, hq, hqs⟩ hbe)
        rw [beq_eq_false_iff_ne.mpr hbne, beq_eq_false_iff_ne.mpr hss]
    rw [hcmp]
    simp [Bool.and_assoc]
  -- split the entity list at the subject entity
  obtain ⟨E1, E2, hsplit⟩ := List.append_of_mem hq
  have hmap : kg.entities.map (fun e => mkNode (uriMapOf kg) e.2) =
      E1.map (fun e => mkNode (uriMapOf kg) e.2) ++
        mkNode (uriMapOf kg) q.2 :: E2.map (fun e => mkNode (uriMapOf kg) e.2) := by
    rw [hsplit]
    simp
  -- uri of the subject entity is not a uri of any other entity
  have hurimid : buildUri q.2.entity_id ∉
      (E1.map (fun e => buildUri e.2.entity_id) ++
       E2.map (fun e => buildUri e.2.entity_id)) := by
    have h2 := hnodup
    rw [hsplit, List.map_append, List.map_cons] at h2
    have h3 := List.nodup_middle.mp h2
    rw [List.nodup_cons] at h3
    exact h3.1
  -- every node except the subject node fails the @id match
  have hother : ∀ e ∈ E1 ++ E2,
      nodeIdIs (mkNode (uriMapOf kg) e.2) (buildUri s) = false := by
    intro e hel
    have hemem : e ∈ kg.entities := by
      rw [hsplit]
      rcases List.mem_append.mp hel with h1 | h2
      · exact List.mem_append_left _ h1
      · exact List.mem_append_right _ (List.mem_cons_of_mem _ h2)
    rw [nodeIdIs_mkNode _ _ _ (hprops e hemem)
      (hlk e.2.entity_id ⟨e, hemem, rfl⟩)]
    have hne3 : buildUri e.2.entity_id ≠ buildUri s := by
      intro heq2
      apply hurimid
      rw [hqs, ← heq2]
      rcases List.mem_append.mp hel with h1 | h2
      · exact List.mem_append_left _ (List.mem_map_of_mem _ h1)
      · exact List.mem_append_right _ (List.mem_map_of_mem _ h2)
    rw [beq_eq_false_iff_ne.mpr hne3]
  have hA0 : ∀ m ∈ E1.map (fun e => mkNode (uriMapOf kg) e.2),
      nodeIdIs m (buildUri s) = false := by
    intro m hm
    obtain ⟨e, hel, rfl⟩ := List.mem_map.mp hm
    exact hother e (List.mem_append_left _ hel)
  have hB0 : ∀ m ∈ E2.map (fun e => mkNode (uriMapOf kg) e.2),
      nodeIdIs m (buildUri s) = false := by
    intro m hm
    obtain ⟨e, hel, rfl⟩ := List.mem_map.mp hm
    exact hother e (List.mem_append_right _ hel)
  have hn0 : nodeIdIs (mkNode (uriMapOf kg) q.2) (buildUri s) = true := by
    rw [nodeIdIs_mkNode _ _ _ (hprops q hq) (hlk q.2.entity_id ⟨q, hq, rfl⟩), hqs]
    simp
  -- decompose the relation fold
  obtain ⟨A2, B2, heqg, hA2, hB2, hfin⟩ :=
    applyRels_decomp (uriMapOf kg) (buildUri s) kg.relations
      (E1.map (fun e => mkNode (uriMapOf kg) e.2))
      (mkNode (uriMapOf kg) q.2)
      (E2.map (fun e => mkNode (uriMapOf kg) e.2))
      hpredid hA0 hB0 hn0
  have hgraph : toJsonldGraph kg = A2 ++
      (kg.relations.foldl (stepNode (uriMapOf kg) (buildUri s))
        (mkNode (uriMapOf kg) q.2)) :: B2 := by
    show kg.relations.foldl (applyRelation (uriMapOf kg))
      (kg.entities.map (fun e => mkNode (uriMapOf kg) e.2)) = _
    rw [hmap, heqg]
  -- the final node's entries at key `p`
  have hfilter : (kg.relations.foldl (stepNode (uriMapOf kg) (buildUri s))
        (mkNode (uriMapOf kg) q.2)).filter (fun e => e.1 == p) =
      [(p, JValue.obj [("@id",
        JValue.str ((strDictGet (uriMapOf kg) rl.object_id).getD ""))])] := by
    apply stepFold_filter_last (uriMapOf kg) (buildUri s) p kg.relations
      (mkNode (uriMapOf kg) q.2) rl (mkNode_keys_nodup _ _)
    rw [hfeq]
    exact hlast
  have hgetdo : (strDictGet (uriMapOf kg) rl.object_id).getD "" =
      buildUri rl.object_id := by
    rw [hlk rl.object_id (hI rl hrlmem).2]
    rfl
  rw [hgetdo] at hfilter
  refine ⟨_, ?_, hfin, ?_, hfilter⟩
  · rw [hgraph]
    exact List.mem_append_right _ (List.mem_cons_self _ _)
  · intro m hm hmid
    rw [hgraph] at hm
    rcases List.mem_append.mp hm with h1 | h2
    · exact absurd hmid (by rw [hA2 m h1]; simp)
    · rcases List.mem_cons.mp h2 with rfl | h3
      · rfl
      · exact absurd hmid (by rw [hB2 m h3]; simp)

end KGC

namespace KGC

/-- C7 witness: three entities, two `worksFor` relations from the same
subject; the exported subject node holds the reference of the later
relation (to `id-2`). -/
theorem claim_C7_last_write_wins_witness :
    ∃ n ∈ toJsonldGraph
      ⟨[("Person:a", ⟨"id-0", "a", "Person", "https://schema.org/Person", []⟩),
        ("Person:b", ⟨"id-1", "b", "Person", "https://schema.org/Person", []⟩),
        ("Person:c", ⟨"id-2", "c", "Person", "https://schema.org/Person", []⟩)],
       [⟨"id-0", "worksFor", "https://schema.org/worksFor", "id-1"⟩,
        ⟨"id-0", "worksFor", "https://schema.org/worksFor", "id-2"⟩], ["t"], 3⟩,
      nodeIdIs n (buildUri "id-0") = true ∧
      (∀ m ∈ toJsonldGraph
        ⟨[("Person:a", ⟨"id-0", "a", "Person", "https://schema.org/Person", []⟩),
          ("Person:b", ⟨"id-1", "b", "Person", "https://schema.org/Person", []⟩),
          ("Person:c", ⟨"id-2", "c", "Person", "https://schema.org/Person", []⟩)],
         [⟨"id-0", "worksFor", "https://schema.org/worksFor", "id-1"⟩,
          ⟨"id-0", "worksFor", "https://schema.org/worksFor", "id-2"⟩], ["t"], 3⟩,
        nodeIdIs m (buildUri "id-0") = true → m = n) ∧
      n.filter (fun q => q.1 == "worksFor") =
        [("worksFor", JValue.obj [("@id", JValue.str (buildUri "id-2"))])] :=
  claim_C7_last_write_wins _ "id-0" "worksFor"
    ⟨"id-0", "worksFor", "https://schema.org/worksFor", "id-2"⟩
    (by
      intro r hr
      rcases List.mem_cons.mp hr with rfl | hr2
      · exact ⟨⟨("Person:a", ⟨"id-0", "a", "Person", "https://schema.org/Person", []⟩), by simp, rfl⟩,
          ⟨("Person:b", ⟨"id-1", "b", "Person", "https://schema.org/Person", []⟩), by simp, rfl⟩⟩
      · rcases List.mem_cons.mp hr2 with rfl | hr3
        · exact ⟨⟨("Person:a", ⟨"id-0", "a", "Person", "https://schema.org/Person", []⟩), by simp, rfl⟩,
            ⟨("Person:c", ⟨"id-2", "c", "Person", "https://schema.org/Person", []⟩), by simp, rfl⟩⟩
        · cases hr3)
    (by decide) (by decide)
    (by
      intro r hr
      rcases List.mem_cons.mp hr with rfl | hr2
      · decide
      · rcases List.mem_cons.mp hr2 with rfl | hr3
        · decide
        · cases hr3)
    (by decide) rfl

end KGC

namespace KGC

/-- C7 counterexample: two stored relations share subject `id-0` and
the predicate name `"@id"` (reachable, since predicates come verbatim
from Oracle JSON).  The first write overwrites the node's `@id` entry,
so the second relation no longer finds the node: no node in the export
carries the latest relation's reference under the shared predicate
key, refuting the unamended claim. -/
theorem claim_C7_last_write_wins_counterexample :
    2 ≤ ((⟨[("Person:a", ⟨"id-0", "a", "Person", "https://schema.org/Person", []⟩),
            ("Person:b", ⟨"id-1", "b", "Person", "https://schema.org/Person", []⟩),
            ("Person:c", ⟨"id-2", "c", "Person", "https://schema.org/Person", []⟩)],
           [⟨"id-0", "@id", "https://schema.org/@id", "id-1"⟩,
            ⟨"id-0", "@id", "https://schema.org/@id", "id-2"⟩], ["t"], 3⟩ : KG).relations.filter
          (fun r => r.subject_id == "id-0" && r.predicate == "@id")).length ∧
    ((⟨[("Person:a", ⟨"id-0", "a", "Person", "https://schema.org/Person", []⟩),
        ("Person:b", ⟨"id-1", "b", "Person", "https://schema.org/Person", []⟩),
        ("Person:c", ⟨"id-2", "c", "Person", "https://schema.org/Person", []⟩)],
       [⟨"id-0", "@id", "https://schema.org/@id", "id-1"⟩,
        ⟨"id-0", "@id", "https://schema.org/@id", "id-2"⟩], ["t"], 3⟩ : KG).relations.filter
          (fun r => r.subject_id == "id-0" && r.predicate == "@id")).getLast? =
      some ⟨"id-0", "@id", "https://schema.org/@id", "id-2"⟩ ∧
    ∀ n ∈ toJsonldGraph
      ⟨[("Person:a", ⟨"id-0", "a", "Person", "https://schema.org/Person", []⟩),
        ("Person:b", ⟨"id-1", "b", "Person", "https://schema.org/Person", []⟩),
        ("Person:c", ⟨"id-2", "c", "Person", "https://schema.org/Person", []⟩)],
       [⟨"id-0", "@id", "https://schema.org/@id", "id-1"⟩,
        ⟨"id-0", "@id", "https://schema.org/@id", "id-2"⟩], ["t"], 3⟩,
      n.filter (fun q => q.1 == "@id") ≠
        [("@id", JValue.obj [("@id", JValue.str (buildUri "id-2"))])] := by
  refine ⟨by decide, rfl, ?_⟩
  have hg : toJsonldGraph
      ⟨[("Person:a", ⟨"id-0", "a", "Person", "https://schema.org/Person", []⟩),
        ("Person:b", ⟨"id-1", "b", "Person", "https://schema.org/Person", []⟩),
        ("Person:c", ⟨"id-2", "c", "Person", "https://schema.org/Person", []⟩)],
       [⟨"id-0", "@id", "https://schema.org/@id", "id-1"⟩,
        ⟨"id-0", "@id", "https://schema.org/@id", "id-2"⟩], ["t"], 3⟩ =
      [[("@id", JValue.obj [("@id", JValue.str "urn:kg:id-1")]),
        ("@type", JValue.str "Person"), ("name", JValue.str "a")],
       [("@id", JValue.str "urn:kg:id-1"),
        ("@type", JValue.str "Person"), ("name", JValue.str "b")],
       [("@id", JValue.str "urn:kg:id-2"),
        ("@type", JValue.str "Person"), ("name", JValue.str "c")]] := rfl
  rw [hg]
  intro n hn
  rcases List.mem_cons.mp hn with rfl | hn2
  · intro h
    have h2 : [("@id", JValue.obj [("@id", JValue.str "urn:kg:id-1")])] =
        [("@id", JValue.obj [("@id", JValue.str (buildUri "id-2"))])] := h
    rw [show buildUri "id-2" = "urn:kg:id-2" from rfl] at h2
    simp at h2
  · rcases List.mem_cons.mp hn2 with rfl | hn3
    · intro h
      have h2 : [("@id", JValue.str "urn:kg:id-1")] =
          [("@id", JValue.obj [("@id", JValue.str (buildUri "id-2"))])] := h
      simp at h2
    · rcases List.mem_cons.mp hn3 with rfl | hn4
      · intro h
        have h2 : [("@id", JValue.str "urn:kg:id-2")] =
            [("@id", JValue.obj [("@id", JValue.str (buildUri "id-2"))])] := h
        simp at h2
      · cases hn4

end KGC
